import Mathlib

/-!
# FasterBASIC compiler core — a shallow embedding in Lean 4

This file embeds, directly from the C++ sources of the FasterBASIC
repository, the parts of the compiler pipeline covered by the claims under
check: the constants manager (`runtime/ConstantsManager.cpp`), the program
store (`shell/program_manager.cpp`), the semantic analyzer
(`src/fasterbasic_semantic.cpp` / `.h`) and the IR generator
(`src/fasterbasic_ircode.cpp`).  C++ containers are modelled with lists and
association lists, `std::stack` with `List` used as a stack, and fallible or
potentially diverging code with `Option` (a fuel parameter bounds the
recursion depth of `DEF FN` inlining).  Number literals carried by
`NumberExpression` (a C++ `double`) are modelled with `Int`: every claim
below depends only on integral literal values, for which the source's
`static_cast<int>` and integral-`PUSH_INT` paths apply.

Theorems for each claim follow the definitions.
-/

namespace FB

/-! ## Constants manager (`runtime/ConstantsManager.cpp`)

`ConstantValue` is `std::variant<int64_t, double, std::string>`.  The
`double` alternative is modelled with an `Int` payload: no claim computes
with double values, only stores and retrieves them. -/

inductive ConstantValue where
  | intVal (v : Int)
  | dblVal (v : Int)
  | strVal (s : String)
deriving DecidableEq

structure ConstantsManager where
  constants : List ConstantValue
  nameToIndex : List (String × Nat)
deriving DecidableEq

namespace ConstantsManager

/-- `ConstantsManager::ConstantsManager()` — empty store. -/
def empty : ConstantsManager := ⟨[], []⟩

/-- `ConstantsManager::addConstant` (all three overloads share this logic):
upsert by name; an existing name keeps its index and overwrites the stored
value, a fresh name is appended at index `m_constants.size()`. -/
def addConstant (m : ConstantsManager) (name : String) (value : ConstantValue) :
    Nat × ConstantsManager :=
  match m.nameToIndex.lookup name with
  | some i => (i, { m with constants := m.constants.set i value })
  | none =>
      let index := m.constants.length
      (index, ⟨m.constants ++ [value], (name, index) :: m.nameToIndex⟩)

/-- `ConstantsManager::getConstant` (source throws `std::out_of_range` for a
bad index; modelled as `none`). -/
def getConstant (m : ConstantsManager) (index : Nat) : Option ConstantValue :=
  m.constants.get? index

/-- `ConstantsManager::hasConstant`. -/
def hasConstant (m : ConstantsManager) (name : String) : Bool :=
  (m.nameToIndex.lookup name).isSome

/-- `ConstantsManager::getConstantIndex` — the stored index, `-1` if the
name is unknown. -/
def getConstantIndex (m : ConstantsManager) (name : String) : Int :=
  match m.nameToIndex.lookup name with
  | some i => (i : Int)
  | none => -1

/-- Well-formedness maintained by the C++ class: every index recorded in
`m_nameToIndex` points inside `m_constants`. -/
def WF (m : ConstantsManager) : Prop :=
  ∀ name i, m.nameToIndex.lookup name = some i → i < m.constants.length

theorem wf_empty : WF empty := by
  intro name i h
  simp [empty, List.lookup] at h

theorem wf_addConstant (m : ConstantsManager) (hm : WF m) (name : String)
    (v : ConstantValue) : WF (m.addConstant name v).2 := by
  unfold addConstant
  cases hl : m.nameToIndex.lookup name with
  | some j =>
      intro n i h
      simpa using hm n i h
  | none =>
      intro n i h
      simp only [List.lookup] at h
      by_cases hn : n = name
      · subst hn
        simp at h
        simp [← h]
      · have hne : (n == name) = false := by simp [hn]
        simp only [hne] at h
        have := hm n i h
        simp
        omega

end ConstantsManager

theorem get?_set_self {α : Type} (l : List α) (j : Nat) (a : α) (h : j < l.length) :
    (l.set j a).get? j = some a := by
  induction l generalizing j with
  | nil => simp at h
  | cons x xs ih =>
      cases j with
      | zero => simp
      | succ k => simpa using ih k (by simpa using h)

/-- **C6.** `manager.add(name, v)` and `manager.add(name, v')` return the
same index; after the second add, `get(index)` reflects `v'` and
`index_of(name)` returns that index; a first-time add of a fresh name
returns an index equal to the number of constants stored before the add. -/
theorem constantsManager_add_upsert (m : ConstantsManager) (hm : m.WF)
    (name : String) (v v' : ConstantValue) :
    (m.addConstant name v).1 = ((m.addConstant name v).2.addConstant name v').1 ∧
    ((m.addConstant name v).2.addConstant name v').2.getConstant
        (m.addConstant name v).1 = some v' ∧
    ((m.addConstant name v).2.addConstant name v').2.getConstantIndex name =
        ((m.addConstant name v).1 : Int) ∧
    (¬ m.hasConstant name → (m.addConstant name v).1 = m.constants.length) := by
  unfold ConstantsManager.addConstant ConstantsManager.getConstant
    ConstantsManager.getConstantIndex ConstantsManager.hasConstant
  cases hl : m.nameToIndex.lookup name with
  | some j =>
      have hj : j < m.constants.length := hm name j hl
      simp only [hl]
      refine ⟨trivial, ?_, ?_, ?_⟩
      · exact get?_set_self _ j v' (by simpa using hj)
      · simp [hl]
      · intro hc
        exact absurd (by simp [hl]) hc
  | none =>
      simp only [hl]
      have hself : ((name, m.constants.length) :: m.nameToIndex).lookup name =
          some m.constants.length := by simp [List.lookup]
      simp only [hself]
      refine ⟨trivial, ?_, by simp, fun _ => trivial⟩
      exact get?_set_self _ _ v' (by simp)

/-- Witness for `constantsManager_add_upsert` at a concrete store. -/
theorem constantsManager_add_upsert_witness :
    (ConstantsManager.empty.addConstant "K" (.intVal 1)).1 =
      ((ConstantsManager.empty.addConstant "K" (.intVal 1)).2.addConstant "K"
        (.intVal 2)).1 ∧
    ((ConstantsManager.empty.addConstant "K" (.intVal 1)).2.addConstant "K"
        (.intVal 2)).2.getConstant
        (ConstantsManager.empty.addConstant "K" (.intVal 1)).1 =
      some (.intVal 2) ∧
    ((ConstantsManager.empty.addConstant "K" (.intVal 1)).2.addConstant "K"
        (.intVal 2)).2.getConstantIndex "K" =
      ((ConstantsManager.empty.addConstant "K" (.intVal 1)).1 : Int) ∧
    (¬ ConstantsManager.empty.hasConstant "K" →
      (ConstantsManager.empty.addConstant "K" (.intVal 1)).1 =
        ConstantsManager.empty.constants.length) :=
  constantsManager_add_upsert ConstantsManager.empty ConstantsManager.wf_empty
    "K" (.intVal 1) (.intVal 2)

/-! ## Program store (`shell/program_manager.cpp`)

`std::map<int, std::string>` is modelled as an association list with unique
keys (`setAssoc` replaces in place, `eraseAssoc` removes). -/

/-- The class `" \t"` of `setLine`'s leading trim. -/
def isSpaceTab (c : Char) : Bool := c = ' ' || c = '\t'

/-- The class `" \t\r\n"` of `setLine`'s trailing trim. -/
def isTrimWS (c : Char) : Bool := c = ' ' || c = '\t' || c = '\r' || c = '\n'

/-- `std::string::find_first_not_of`: index of the first character outside
the class, if any. -/
def findFirstNotOf : List Char → (Char → Bool) → Option Nat
  | [], _ => none
  | c :: cs, inClass =>
      if inClass c then (findFirstNotOf cs inClass).map (· + 1) else some 0

/-- `std::string::find_last_not_of`, i.e. `find_first_not_of` on the
reversed string. -/
def findLastNotOf (l : List Char) (inClass : Char → Bool) : Option Nat :=
  (findFirstNotOf l.reverse inClass).map (fun i => l.length - 1 - i)

def setAssoc (l : List (Int × String)) (k : Int) (v : String) :
    List (Int × String) :=
  match l with
  | [] => [(k, v)]
  | (k', v') :: rest =>
      if k' = k then (k, v) :: rest else (k', v') :: setAssoc rest k v

structure ProgramManager where
  lines : List (Int × String)
  modified : Bool
  autoMode : Bool
  autoStart : Int
  autoStep : Int
  autoCurrentLine : Int
deriving DecidableEq

namespace ProgramManager

/-- `ProgramManager::ProgramManager()`. -/
def initial : ProgramManager := ⟨[], false, false, 10, 10, 10⟩

/-- `ProgramManager::isValidLineNumber`. -/
def isValidLineNumber (lineNumber : Int) : Bool :=
  lineNumber > 0 && lineNumber ≤ 65535

/-- `ProgramManager::hasLine`. -/
def hasLine (pm : ProgramManager) (lineNumber : Int) : Bool :=
  (pm.lines.lookup lineNumber).isSome

/-- `ProgramManager::deleteLine` — erases the entry and marks the store
modified only when the line exists. -/
def deleteLine (pm : ProgramManager) (lineNumber : Int) : ProgramManager :=
  if (pm.lines.lookup lineNumber).isSome then
    { pm with lines := pm.lines.filter (fun p => !(p.1 == lineNumber)),
              modified := true }
  else pm

/-- `ProgramManager::setLine`.  When `find_last_not_of` returns `npos` the
C++ count `end - start + 1` wraps around: it is `0` when `start = 0` and
large enough that `substr` takes the whole remainder otherwise; the `none`
branch of the inner match reproduces that. -/
def setLine (pm : ProgramManager) (lineNumber : Int) (code : String) :
    ProgramManager :=
  if ¬ isValidLineNumber lineNumber then pm
  else
    match findFirstNotOf code.data isSpaceTab with
    | none => pm.deleteLine lineNumber
    | some start =>
        let trimmedCode : List Char :=
          match findLastNotOf code.data isTrimWS with
          | some e => (code.data.drop start).take (e - start + 1)
          | none => if start = 0 then [] else code.data.drop start
        if trimmedCode.isEmpty then pm.deleteLine lineNumber
        else
          { pm with
            lines := setAssoc pm.lines lineNumber (String.mk trimmedCode),
            modified := true,
            autoCurrentLine :=
              if pm.autoMode && lineNumber ≥ pm.autoCurrentLine then
                lineNumber + pm.autoStep
              else pm.autoCurrentLine }

end ProgramManager

/-- Trimming of spaces and tabs at both ends, as the claim's words ("text
trims (of spaces and tabs)") describe it.  Compared against `setLine`'s own
trimming, which also strips trailing `\r` and `\n`. -/
def specTrimSpTab (s : String) : String :=
  String.mk (((s.data.dropWhile isSpaceTab).reverse.dropWhile isSpaceTab).reverse)

theorem findFirstNotOf_all (l : List Char) (p : Char → Bool)
    (h : ∀ c ∈ l, p c = true) : findFirstNotOf l p = none := by
  induction l with
  | nil => rfl
  | cons c cs ih =>
      simp only [findFirstNotOf, h c (by simp)]
      rw [ih (fun d hd => h d (by simp [hd]))]
      rfl

theorem findFirstNotOf_append (A : List Char) (c0 : Char) (t : List Char)
    (p : Char → Bool) (hA : ∀ c ∈ A, p c = true) (hc0 : p c0 = false) :
    findFirstNotOf (A ++ c0 :: t) p = some A.length := by
  induction A with
  | nil => simp [findFirstNotOf, hc0]
  | cons a as ih =>
      simp [findFirstNotOf, hA a (by simp),
        ih (fun d hd => hA d (by simp [hd]))]

theorem findLastNotOf_concat (init : List Char) (cL : Char) (B : List Char)
    (p : Char → Bool) (hB : ∀ c ∈ B, p c = true) (hcL : p cL = false) :
    findLastNotOf (init ++ cL :: B) p = some init.length := by
  unfold findLastNotOf
  have hrev : (init ++ cL :: B).reverse = B.reverse ++ cL :: init.reverse := by
    simp
  rw [hrev,
    findFirstNotOf_append B.reverse cL init.reverse p
      (fun c hc => hB c (by simpa using hc)) hcL]
  simp [List.length_append]

/-- **C9 (amended).** `setLine` leaves the store untouched for a line
number outside `[1, 65535]`; for text that is all spaces/tabs it deletes the
line; otherwise — decomposing the text as leading spaces/tabs `A`, a core
`M` that neither starts with a space/tab nor ends with a whitespace
character, and trailing whitespace (spaces, tabs, CR, LF) `B` — it stores
`M`, sets the modified flag, and advances the auto cursor to `n + step`
when auto mode is on and `n` is at or past the cursor.  (The original
claim's trim of spaces and tabs only is refuted by
`setLine_trailingCR_counterexample`: trailing `\r`/`\n` are stripped
too.) -/
theorem setLine_spec (pm : ProgramManager) (n : Int) (code : String)
    (A M B : List Char)
    (hsplit : code.data = A ++ M ++ B)
    (hA : ∀ c ∈ A, isSpaceTab c = true)
    (hB : ∀ c ∈ B, isTrimWS c = true)
    (hM0 : M = [] → B = [])
    (hMfirst : ∀ c, M.head? = some c → isSpaceTab c = false)
    (hMlast : ∀ c, M.getLast? = some c → isTrimWS c = false) :
    pm.setLine n code =
      if ¬ ProgramManager.isValidLineNumber n then pm
      else if M.isEmpty then pm.deleteLine n
      else
        { pm with
          lines := setAssoc pm.lines n (String.mk M),
          modified := true,
          autoCurrentLine :=
            if pm.autoMode && n ≥ pm.autoCurrentLine then n + pm.autoStep
            else pm.autoCurrentLine } := by
  by_cases hv : ProgramManager.isValidLineNumber n
  · rw [if_neg (by simp [hv])]
    cases M with
    | nil =>
        have hBnil : B = [] := hM0 rfl
        subst hBnil
        have hall : code.data = A := by simpa using hsplit
        have hnone : findFirstNotOf code.data isSpaceTab = none := by
          rw [hall]; exact findFirstNotOf_all A isSpaceTab hA
        simp [ProgramManager.setLine, hv, hnone]
    | cons m0 ms =>
        have hMne : (m0 :: ms : List Char) ≠ [] := by simp
        have hfirst : findFirstNotOf code.data isSpaceTab = some A.length := by
          have h1 : code.data = A ++ m0 :: (ms ++ B) := by simp [hsplit]
          rw [h1]
          exact findFirstNotOf_append A m0 (ms ++ B) isSpaceTab hA
            (hMfirst m0 rfl)
        have hdl : (m0 :: ms).dropLast ++ [(m0 :: ms).getLast hMne] =
            m0 :: ms := List.dropLast_append_getLast hMne
        have hlastWS : isTrimWS ((m0 :: ms).getLast hMne) = false :=
          hMlast _ (List.getLast?_eq_getLast _ hMne)
        have hlast : findLastNotOf code.data isTrimWS =
            some ((A ++ (m0 :: ms).dropLast).length) := by
          have h2 : code.data =
              (A ++ (m0 :: ms).dropLast) ++ ((m0 :: ms).getLast hMne) :: B := by
            rw [hsplit]
            conv_lhs => rw [← hdl]
            simp
          rw [h2]
          exact findLastNotOf_concat _ _ _ isTrimWS hB hlastWS
        have hdrop : code.data.drop A.length = (m0 :: ms) ++ B := by
          rw [hsplit, List.append_assoc]
          exact List.drop_left A ((m0 :: ms) ++ B)
        have hcount : (A ++ (m0 :: ms).dropLast).length - A.length + 1 =
            (m0 :: ms).length := by
          simp [List.length_append, List.length_dropLast]
        have htrim : (code.data.drop A.length).take
            ((A ++ (m0 :: ms).dropLast).length - A.length + 1) = m0 :: ms := by
          rw [hdrop, hcount]
          exact List.take_left (m0 :: ms) B
        simp only [ProgramManager.setLine, hv, not_true, if_false, hfirst,
          hlast, htrim]
  · simp [ProgramManager.setLine, hv]

/-- Counterexample to **C9** as stated: `set(10, "A\r")` stores `"A"`, not
the text trimmed of spaces and tabs (which would keep the trailing carriage
return). -/
theorem setLine_trailingCR_counterexample :
    (ProgramManager.initial.setLine 10 "A\r").lines = [(10, "A")] ∧
    specTrimSpTab "A\r" = "A\r" ∧
    (ProgramManager.initial.setLine 10 "A\r").lines ≠
      [(10, specTrimSpTab "A\r")] := by decide

/-- Witness for `setLine_spec` at a concrete store and text. -/
theorem setLine_spec_witness :
    ProgramManager.initial.setLine 10 " X \n" =
      if ¬ ProgramManager.isValidLineNumber 10 then ProgramManager.initial
      else if ([('X' : Char)] : List Char).isEmpty then
        ProgramManager.initial.deleteLine 10
      else
        { ProgramManager.initial with
          lines := setAssoc ProgramManager.initial.lines 10
            (String.mk [('X' : Char)]),
          modified := true,
          autoCurrentLine :=
            if ProgramManager.initial.autoMode &&
                (10 : Int) ≥ ProgramManager.initial.autoCurrentLine then
              10 + ProgramManager.initial.autoStep
            else ProgramManager.initial.autoCurrentLine } :=
  setLine_spec ProgramManager.initial 10 " X \n" [' '] ['X'] [' ', '\n']
    (by decide) (by decide) (by decide) (by decide) (by decide) (by decide)

/-! ## AST (`fasterbasic_ast.h`, as consumed by the analyzer and IR
generator)

Only the token kinds, expression forms and statement forms exercised by the
claims are embedded.  Statement kinds outside this set go through the
default (no-op) branch of `validateStatement` and play no role in any
claim. -/

inductive TokenType where
  | PLUS | MINUS | MULTIPLY | DIVIDE | INT_DIVIDE | MOD | POWER
  | EQUAL | NOT_EQUAL | LESS_THAN | LESS_EQUAL | GREATER_THAN | GREATER_EQUAL
  | AND | OR | XOR | EQV | IMP | NOT
  | TYPE_INT | TYPE_FLOAT | TYPE_DOUBLE | TYPE_STRING | UNKNOWN
deriving DecidableEq

inductive Expr where
  | num (value : Int)
  | strLit (value : String)
  | var (name : String)
  | arrayAccess (name : String) (indices : List Expr)
  | binary (op : TokenType) (left right : Expr)
  | unary (op : TokenType) (e : Expr)
  | call (name : String) (args : List Expr)
  | registryCall (name : String) (args : List Expr)
  | iif (c t f : Expr)

/-- One `name(dims)` group of a `DIM` statement. -/
structure ArrayDim where
  name : String
  dimensions : List Expr
  typeSuffix : TokenType

inductive Stmt where
  | gotoLine (target : Nat)
  | gotoLabel (label : String)
  | labelDecl (name : String)
  | dim (arrays : List ArrayDim)
  | defFn (functionName : String) (parameters : List String) (body : Expr)
  | forS (varName : String)
  | nextS (varName : String)
  | whileS (cond : Expr)
  | wendS
  | repeatS
  | untilS (cond : Expr)
  | doS (cond : Option Expr)
  | loopS (cond : Option Expr)

structure ProgramLine where
  lineNumber : Nat
  statements : List Stmt

structure Program where
  lines : List ProgramLine

/-! ## Semantic analyzer (`fasterbasic_semantic.h` / `.cpp`) -/

inductive VariableType where
  | INT | FLOAT | DOUBLE | STRING | UNICODE | VOID | UNKNOWN
deriving DecidableEq

inductive SemanticErrorType where
  | UNDEFINED_LINE | UNDEFINED_LABEL | DUPLICATE_LABEL | UNDEFINED_VARIABLE
  | UNDEFINED_ARRAY | UNDEFINED_FUNCTION | ARRAY_NOT_DECLARED
  | ARRAY_REDECLARED | FUNCTION_REDECLARED | TYPE_MISMATCH
  | WRONG_DIMENSION_COUNT | INVALID_ARRAY_INDEX | CONTROL_FLOW_MISMATCH
  | NEXT_WITHOUT_FOR | WEND_WITHOUT_WHILE | UNTIL_WITHOUT_REPEAT
  | LOOP_WITHOUT_DO | FOR_WITHOUT_NEXT | WHILE_WITHOUT_WEND | DO_WITHOUT_LOOP
  | REPEAT_WITHOUT_UNTIL | RETURN_WITHOUT_GOSUB | DUPLICATE_LINE_NUMBER
deriving DecidableEq

structure ArraySym where
  type : VariableType
  dimensions : List Int
  totalSize : Int
deriving DecidableEq

structure FunctionSym where
  parameters : List String
  body : Option Expr
  returnType : VariableType

/-- The fields of `SymbolTable` the claims exercise (`variables`,
`constants` and the data segment are untouched by them). -/
structure SymbolTable where
  lineNumbers : List Nat
  labels : List (String × Nat)
  arrays : List (String × ArraySym)
  functions : List (String × FunctionSym)
  nextLabelId : Nat
  unicodeMode : Bool

/-- `SymbolTable`'s member initializers: `nextLabelId = 10000`. -/
def SymbolTable.fresh : SymbolTable := ⟨[], [], [], [], 10000, false⟩

structure CompilerOptions where
  unicodeMode : Bool
deriving DecidableEq

/-- The analyzer's mutable state: symbol table, diagnostics and the four
control-flow stacks (`std::stack` contents listed top-first).  Stack entries
record the source line (`SourceLocation`), and the `FOR` stack the loop
variable as in `ForContext`. -/
structure AnalyzerState where
  symbolTable : SymbolTable
  errors : List SemanticErrorType
  warnings : List String
  forStack : List String
  whileStack : List Nat
  repeatStack : List Nat
  doStack : List Nat

/-- `SemanticAnalyzer::SemanticAnalyzer()`. -/
def AnalyzerState.init : AnalyzerState := ⟨SymbolTable.fresh, [], [], [], [], [], []⟩

/-- `SemanticAnalyzer::error` — diagnostics accumulate in emission order. -/
def report (st : AnalyzerState) (e : SemanticErrorType) : AnalyzerState :=
  { st with errors := st.errors ++ [e] }

def warn (st : AnalyzerState) (msg : String) : AnalyzerState :=
  { st with warnings := st.warnings ++ [msg] }

/-- `SemanticAnalyzer::inferTypeFromSuffix`. -/
def inferTypeFromSuffix (st : AnalyzerState) (suffix : TokenType) : VariableType :=
  match suffix with
  | .TYPE_INT => .INT
  | .TYPE_FLOAT => .FLOAT
  | .TYPE_DOUBLE => .DOUBLE
  | .TYPE_STRING => if st.symbolTable.unicodeMode then .UNICODE else .STRING
  | _ => .UNKNOWN

/-- `SemanticAnalyzer::inferTypeFromName`. -/
def inferTypeFromName (st : AnalyzerState) (name : String) : VariableType :=
  if name.isEmpty then .FLOAT
  else if name.length > 7 && name.takeRight 7 = "_STRING" then
    (if st.symbolTable.unicodeMode then .UNICODE else .STRING)
  else if name.length > 4 && name.takeRight 4 = "_INT" then .INT
  else if name.length > 7 && name.takeRight 7 = "_DOUBLE" then .DOUBLE
  else
    match name.back with
    | '$' => if st.symbolTable.unicodeMode then .UNICODE else .STRING
    | '%' => .INT
    | '!' => .FLOAT
    | '#' => .DOUBLE
    | _ => .FLOAT

/-- One step of `SemanticAnalyzer::collectLineNumbers`: registers a
positive line number, rejecting duplicates. -/
def collectLineNumbersStep (st : AnalyzerState) (line : ProgramLine) :
    AnalyzerState :=
  if line.lineNumber > 0 then
    if line.lineNumber ∈ st.symbolTable.lineNumbers then
      report st .DUPLICATE_LINE_NUMBER
    else
      { st with symbolTable :=
          { st.symbolTable with
            lineNumbers := st.symbolTable.lineNumbers ++ [line.lineNumber] } }
  else st

/-- `SemanticAnalyzer::collectLineNumbers`. -/
def collectLineNumbers (st : AnalyzerState) (p : Program) : AnalyzerState :=
  p.lines.foldl collectLineNumbersStep st

/-- `SemanticAnalyzer::declareLabel`: rejects duplicates, otherwise assigns
`nextLabelId` and increments the counter. -/
def declareLabel (st : AnalyzerState) (name : String) : AnalyzerState :=
  if (st.symbolTable.labels.lookup name).isSome then
    report st .DUPLICATE_LABEL
  else
    { st with symbolTable :=
        { st.symbolTable with
          labels := st.symbolTable.labels ++ [(name, st.symbolTable.nextLabelId)],
          nextLabelId := st.symbolTable.nextLabelId + 1 } }

/-- `SemanticAnalyzer::collectLabels`. -/
def collectLabels (st : AnalyzerState) (p : Program) : AnalyzerState :=
  p.lines.foldl
    (fun st line =>
      line.statements.foldl
        (fun st stmt =>
          match stmt with
          | .labelDecl name => declareLabel st name
          | _ => st)
        st)
    st

/-- The warning text of `processDimStatement`'s non-constant branch. -/
def nonConstDimMsg : String := "Non-constant array dimension; assuming 10"

/-- The body of `SemanticAnalyzer::processDimStatement`'s dimension loop:
a literal dimension `n` contributes `n + 1` slots (after forcing
non-positive literals to `1` with an `INVALID_ARRAY_INDEX` error); a
non-literal dimension contributes `11` slots and a warning. -/
def dimStep (acc : AnalyzerState × List Int × Int) (dimExpr : Expr) :
    AnalyzerState × List Int × Int :=
  let (st, dimensions, totalSize) := acc
  match dimExpr with
  | .num value =>
      let size : Int := value
      let (st, size) :=
        if size ≤ 0 then (report st .INVALID_ARRAY_INDEX, (1 : Int))
        else (st, size)
      (st, dimensions ++ [size + 1], totalSize * (size + 1))
  | _ =>
      (warn st nonConstDimMsg, dimensions ++ [11], totalSize * 11)

def processDimDims (st : AnalyzerState) (dims : List Expr) :
    AnalyzerState × List Int × Int :=
  dims.foldl dimStep (st, [], 1)

/-- `SemanticAnalyzer::processDimStatement` for one `name(dims)` group. -/
def processDimArray (st : AnalyzerState) (arrayDim : ArrayDim) : AnalyzerState :=
  if (st.symbolTable.arrays.lookup arrayDim.name).isSome then
    report st .ARRAY_REDECLARED
  else
    let (st, dimensions, totalSize) := processDimDims st arrayDim.dimensions
    let ty :=
      match inferTypeFromSuffix st arrayDim.typeSuffix with
      | .UNKNOWN => inferTypeFromName st arrayDim.name
      | t => t
    { st with symbolTable :=
        { st.symbolTable with
          arrays := st.symbolTable.arrays ++
            [(arrayDim.name, ⟨ty, dimensions, totalSize⟩)] } }

/-- `SemanticAnalyzer::processDimStatement`. -/
def processDimStatement (st : AnalyzerState) (arrays : List ArrayDim) :
    AnalyzerState :=
  arrays.foldl processDimArray st

/-- `SemanticAnalyzer::processDefStatement`: rejects redeclaration, records
parameters and a pointer to the body; the body expression itself is never
inspected. -/
def processDefStatement (st : AnalyzerState) (functionName : String)
    (parameters : List String) (body : Expr) : AnalyzerState :=
  if (st.symbolTable.functions.lookup functionName).isSome then
    report st .FUNCTION_REDECLARED
  else
    { st with symbolTable :=
        { st.symbolTable with
          functions := st.symbolTable.functions ++
            [(functionName,
              ⟨parameters, some body, inferTypeFromName st functionName⟩)] } }

def collectDimStatements (st : AnalyzerState) (p : Program) : AnalyzerState :=
  p.lines.foldl
    (fun st line =>
      line.statements.foldl
        (fun st stmt =>
          match stmt with
          | .dim arrays => processDimStatement st arrays
          | _ => st)
        st)
    st

def collectDefStatements (st : AnalyzerState) (p : Program) : AnalyzerState :=
  p.lines.foldl
    (fun st line =>
      line.statements.foldl
        (fun st stmt =>
          match stmt with
          | .defFn name params body => processDefStatement st name params body
          | _ => st)
        st)
    st

/-- `SemanticAnalyzer::pass1_collectDeclarations` (the `FUNCTION`/`SUB`,
`DATA` and `CONSTANT` collectors touch no state the claims read). -/
def pass1 (st : AnalyzerState) (p : Program) : AnalyzerState :=
  collectDefStatements (collectDimStatements (collectLabels (collectLineNumbers st p) p) p) p

/-- `SemanticAnalyzer::validateStatement`, restricted to the claim-relevant
statement kinds; everything else takes the switch's default branch. -/
def validateStatement (st : AnalyzerState) (line : Nat) (stmt : Stmt) :
    AnalyzerState :=
  match stmt with
  | .gotoLine target =>
      if target ∈ st.symbolTable.lineNumbers then st
      else report st .UNDEFINED_LINE
  | .gotoLabel label =>
      if (st.symbolTable.labels.lookup label).isSome then st
      else report st .UNDEFINED_LABEL
  | .forS v => { st with forStack := v :: st.forStack }
  | .nextS v =>
      match st.forStack with
      | [] => report st .NEXT_WITHOUT_FOR
      | top :: rest =>
          let st :=
            if v ≠ "" && v ≠ top then report st .CONTROL_FLOW_MISMATCH
            else st
          { st with forStack := rest }
  | .whileS _ => { st with whileStack := line :: st.whileStack }
  | .wendS =>
      match st.whileStack with
      | [] => report st .WEND_WITHOUT_WHILE
      | _ :: rest => { st with whileStack := rest }
  | .repeatS => { st with repeatStack := line :: st.repeatStack }
  | .untilS _ =>
      match st.repeatStack with
      | [] => report st .UNTIL_WITHOUT_REPEAT
      | _ :: rest => { st with repeatStack := rest }
  | .doS _ => { st with doStack := line :: st.doStack }
  | .loopS _ =>
      match st.doStack with
      | [] => report st .LOOP_WITHOUT_DO
      | _ :: rest => { st with doStack := rest }
  | _ => st

/-- `SemanticAnalyzer::validateProgramLine`. -/
def validateProgramLine (st : AnalyzerState) (line : ProgramLine) : AnalyzerState :=
  line.statements.foldl
    (fun st stmt => validateStatement st line.lineNumber stmt) st

/-- `SemanticAnalyzer::pass2_validate`. -/
def pass2 (st : AnalyzerState) (p : Program) : AnalyzerState :=
  p.lines.foldl validateProgramLine st

/-- `SemanticAnalyzer::validateControlFlow` — one error per non-empty
stack.  The `FOR`, `WHILE` and `REPEAT` stacks are checked; the `DO` stack
is not (`DO_WITHOUT_LOOP` is declared in `SemanticErrorType` but never
emitted anywhere in the source). -/
def validateControlFlow (st : AnalyzerState) : AnalyzerState :=
  let st := if st.forStack ≠ [] then report st .FOR_WITHOUT_NEXT else st
  let st := if st.whileStack ≠ [] then report st .WHILE_WITHOUT_WEND else st
  if st.repeatStack ≠ [] then report st .REPEAT_WITHOUT_UNTIL else st

/-- `SemanticAnalyzer::analyze`: clears diagnostics, resets the symbol
table (its member initializers restart `nextLabelId` at `10000`), applies
the options, empties the `FOR`/`WHILE`/`REPEAT` stacks — the source never
empties `m_doStack` — and runs the two passes and the final control-flow
check.  Returns `m_errors.empty()` with the final state. -/
def analyze (st : AnalyzerState) (p : Program) (options : CompilerOptions) :
    Bool × AnalyzerState :=
  let st := { st with
    errors := [],
    warnings := [],
    symbolTable := { SymbolTable.fresh with unicodeMode := options.unicodeMode },
    forStack := [],
    whileStack := [],
    repeatStack := [] }
  let st := pass1 st p
  let st := pass2 st p
  let st := validateControlFlow st
  (st.errors.isEmpty, st)

def defaultOptions : CompilerOptions := ⟨false⟩

/-- A program whose single statement is an unclosed `FOR`. -/
def progUnclosedFor : Program := ⟨[⟨10, [.forS "I"]⟩]⟩

/-- A program whose single statement is an unclosed `WHILE`. -/
def progUnclosedWhile : Program := ⟨[⟨10, [.whileS (.num 1)]⟩]⟩

/-- A program whose single statement is an unclosed `REPEAT`. -/
def progUnclosedRepeat : Program := ⟨[⟨10, [.repeatS]⟩]⟩

/-- A program whose single statement is an unclosed `DO`. -/
def progUnclosedDo : Program := ⟨[⟨10, [.doS none]⟩]⟩

/-- **C3.** Unclosed `FOR`/`WHILE`/`REPEAT` openers are reported at end of
program, but an unclosed `DO` is *not*: `validateControlFlow` never
examines `m_doStack`, and `DO_WITHOUT_LOOP` is never emitted, so a program
ending with an unmatched `DO` passes analysis — contradicting the claim's
fourth case. -/
theorem unclosed_loop_endings :
    (analyze AnalyzerState.init progUnclosedFor defaultOptions).2.errors =
      [.FOR_WITHOUT_NEXT] ∧
    (analyze AnalyzerState.init progUnclosedFor defaultOptions).1 = false ∧
    (analyze AnalyzerState.init progUnclosedWhile defaultOptions).2.errors =
      [.WHILE_WITHOUT_WEND] ∧
    (analyze AnalyzerState.init progUnclosedWhile defaultOptions).1 = false ∧
    (analyze AnalyzerState.init progUnclosedRepeat defaultOptions).2.errors =
      [.REPEAT_WITHOUT_UNTIL] ∧
    (analyze AnalyzerState.init progUnclosedRepeat defaultOptions).1 = false ∧
    (analyze AnalyzerState.init progUnclosedDo defaultOptions).2.errors = [] ∧
    (analyze AnalyzerState.init progUnclosedDo defaultOptions).1 = true := by
  decide

/-- A `LOOP` with no opener followed by an unmatched `DO`. -/
def progLoopThenDo : Program := ⟨[⟨10, [.loopS none]⟩, ⟨20, [.doS none]⟩]⟩

/-- **C10.** `analyze` is not a function of its inputs: it clears the
`FOR`/`WHILE`/`REPEAT` stacks but not `m_doStack`, so the `DO` left on the
stack by the first run of `10 LOOP : 20 DO` silently absorbs the stray
`LOOP` of the second run — the first call fails with `LOOP_WITHOUT_DO`, the
second call on the very same program and options succeeds. -/
theorem analyze_second_run_differs :
    (analyze AnalyzerState.init progLoopThenDo defaultOptions).1 = false ∧
    (analyze AnalyzerState.init progLoopThenDo defaultOptions).2.errors =
      [.LOOP_WITHOUT_DO] ∧
    (analyze (analyze AnalyzerState.init progLoopThenDo defaultOptions).2
        progLoopThenDo defaultOptions).1 = true ∧
    (analyze (analyze AnalyzerState.init progLoopThenDo defaultOptions).2
        progLoopThenDo defaultOptions).2.errors = [] := by
  decide

/-- A program that uses line number 10000 and declares one label. -/
def progLineTenThousand : Program :=
  ⟨[⟨10000, [.labelDecl "SPOT"]⟩]⟩

/-- **C4.** The label-id counter restarts at 10000 on every `analyze`, so
the very first label of a program whose lines include 10000 receives id
10000 — equal to a BASIC line number of the same program, contradicting the
claimed disjointness (line numbers run up to 65535, the counter starts
inside that range). -/
theorem label_id_collides_with_line_number :
    (analyze AnalyzerState.init progLineTenThousand
        defaultOptions).2.symbolTable.labels.lookup "SPOT" = some 10000 ∧
    10000 ∈ (analyze AnalyzerState.init progLineTenThousand
        defaultOptions).2.symbolTable.lineNumbers ∧
    (analyze AnalyzerState.init progLineTenThousand defaultOptions).1 = true := by
  decide

/-- `10 DIM A(0)` as a whole program. -/
def progDimZero : Program := ⟨[⟨10, [.dim [⟨"A", [.num 0], .UNKNOWN⟩]]⟩]⟩

/-- Counterexample to **C2** as stated: `DIM A(0)` does *not* allocate one
slot with no error — the analyzer reports `INVALID_ARRAY_INDEX` ("Array
dimension must be positive"), forces the size to 1 and records 2 slots. -/
theorem dim_zero_counterexample :
    (analyze AnalyzerState.init progDimZero defaultOptions).2.errors =
      [.INVALID_ARRAY_INDEX] ∧
    (analyze AnalyzerState.init progDimZero defaultOptions).1 = false ∧
    (analyze AnalyzerState.init progDimZero
        defaultOptions).2.symbolTable.arrays.lookup "A" =
      some ⟨.FLOAT, [2], 2⟩ := by
  decide

/-- Is the dimension expression a numeric literal (`EXPR_NUMBER`)? -/
def isNumLit : Expr → Bool
  | .num _ => true
  | _ => false

/-- The slot count one dimension expression yields: `n + 1` for a literal
`n`, `11` for a non-literal. -/
def dimSlots : Expr → Int
  | .num v => v + 1
  | _ => 11

theorem lookup_append_fresh {α β : Type} [BEq α] [LawfulBEq α] (l : List (α × β)) (k : α)
    (v : β) (h : l.lookup k = none) : (l ++ [(k, v)]).lookup k = some v := by
  induction l with
  | nil => simp [List.lookup]
  | cons p ps ih =>
      obtain ⟨k', v'⟩ := p
      simp only [List.lookup] at h ⊢
      cases hk : (k == k') with
      | true => simp [hk] at h
      | false =>
          simp only [hk] at h ⊢
          exact ih h

theorem dimSlots_of_not_lit : ∀ e : Expr, isNumLit e = false → dimSlots e = 11
  | .num _, h => by simp [isNumLit] at h
  | .strLit _, _ => rfl
  | .var _, _ => rfl
  | .arrayAccess _ _, _ => rfl
  | .binary _ _ _, _ => rfl
  | .unary _ _, _ => rfl
  | .call _ _, _ => rfl
  | .registryCall _ _, _ => rfl
  | .iif _ _ _, _ => rfl

theorem dimStep_of_not_lit (st : AnalyzerState) (acc1 : List Int) (acc2 : Int) :
    ∀ e : Expr, isNumLit e = false →
      dimStep (st, acc1, acc2) e = (warn st nonConstDimMsg, acc1 ++ [11], acc2 * 11)
  | .num _, h => by simp [isNumLit] at h
  | .strLit _, _ => rfl
  | .var _, _ => rfl
  | .arrayAccess _ _, _ => rfl
  | .binary _ _ _, _ => rfl
  | .unary _ _, _ => rfl
  | .call _ _, _ => rfl
  | .registryCall _ _, _ => rfl
  | .iif _ _ _, _ => rfl

theorem dimStep_fold (dims : List Expr)
    (hdims : ∀ e ∈ dims, (∃ v : Int, e = .num v ∧ 1 ≤ v) ∨ isNumLit e = false) :
    ∀ (st : AnalyzerState) (acc1 : List Int) (acc2 : Int),
    dims.foldl dimStep (st, acc1, acc2) =
      ({ st with warnings := st.warnings ++
          List.replicate (dims.countP (fun e => !isNumLit e)) nonConstDimMsg },
       acc1 ++ dims.map dimSlots,
       acc2 * (dims.map dimSlots).prod) := by
  induction dims with
  | nil => intro st acc1 acc2; simp
  | cons e es ih =>
      intro st acc1 acc2
      rcases hdims e (by simp) with ⟨v, rfl, hv⟩ | hnl
      · have hstep : dimStep (st, acc1, acc2) (.num v) =
            (st, acc1 ++ [v + 1], acc2 * (v + 1)) := by
          simp [dimStep, show ¬ v ≤ 0 by omega]
        rw [List.foldl_cons, hstep,
          ih (fun x hx => hdims x (by simp [hx])) st (acc1 ++ [v + 1])
            (acc2 * (v + 1))]
        simp [dimSlots, isNumLit, List.countP_cons, mul_assoc]
      · rw [List.foldl_cons, dimStep_of_not_lit st acc1 acc2 e hnl,
          ih (fun x hx => hdims x (by simp [hx])) _ (acc1 ++ [11]) (acc2 * 11)]
        simp [warn, hnl, dimSlots_of_not_lit e hnl, List.countP_cons,
          List.replicate_succ, mul_assoc]

/-- **C2 (amended).** Pass 1 records, for a freshly declared array, `n + 1`
slots for every dimension written as a *positive* literal `n`, and `11`
slots plus a warning (no error) for a non-literal dimension; in particular
`DIM A(10)` stores eleven slots.  The original claim's `DIM A(0)` case
fails: a literal `n ≤ 0` draws an `INVALID_ARRAY_INDEX` error and is
forced to one, giving two slots (`dim_zero_counterexample`). -/
theorem processDim_literal_spec (st : AnalyzerState) (nm : String)
    (dims : List Expr) (suffix : TokenType)
    (hfresh : st.symbolTable.arrays.lookup nm = none)
    (hdims : ∀ e ∈ dims, (∃ v : Int, e = .num v ∧ 1 ≤ v) ∨ isNumLit e = false) :
    (processDimArray st ⟨nm, dims, suffix⟩).errors = st.errors ∧
    (processDimArray st ⟨nm, dims, suffix⟩).warnings =
      st.warnings ++
        List.replicate (dims.countP (fun e => !isNumLit e)) nonConstDimMsg ∧
    ((processDimArray st ⟨nm, dims, suffix⟩).symbolTable.arrays.lookup nm).map
      ArraySym.dimensions = some (dims.map dimSlots) := by
  have hfold := dimStep_fold dims hdims st [] 1
  unfold processDimArray processDimDims
  rw [if_neg (by simp [hfresh]), hfold]
  refine ⟨by simp, by simp, ?_⟩
  simp [lookup_append_fresh _ _ _ hfresh]

/-- Witness for `processDim_literal_spec`: `DIM A(10, N)` on a fresh
analyzer — eleven slots for the literal, eleven plus a warning for the
non-literal, no error. -/
theorem processDim_literal_spec_witness :
    (processDimArray AnalyzerState.init
        ⟨"A", [.num 10, .var "N"], .UNKNOWN⟩).errors = AnalyzerState.init.errors ∧
    (processDimArray AnalyzerState.init
        ⟨"A", [.num 10, .var "N"], .UNKNOWN⟩).warnings =
      AnalyzerState.init.warnings ++
        List.replicate ([Expr.num 10, Expr.var "N"].countP
          (fun e => !isNumLit e)) nonConstDimMsg ∧
    ((processDimArray AnalyzerState.init
        ⟨"A", [.num 10, .var "N"], .UNKNOWN⟩).symbolTable.arrays.lookup "A").map
      ArraySym.dimensions = some ([Expr.num 10, Expr.var "N"].map dimSlots) :=
  processDim_literal_spec AnalyzerState.init "A" [.num 10, .var "N"] .UNKNOWN rfl
    (by
      intro e he
      simp at he
      rcases he with rfl | rfl
      · exact Or.inl ⟨10, rfl, by norm_num⟩
      · exact Or.inr rfl)

/-! ### GOTO to a non-existent line (claim C1)

Pass-2 bookkeeping lemmas: `validateStatement` never touches the symbol
table and only appends to the error list. -/

theorem validateStatement_symbolTable (st : AnalyzerState) (ln : Nat)
    (s : Stmt) : (validateStatement st ln s).symbolTable = st.symbolTable := by
  cases s with
  | gotoLine t => dsimp only [validateStatement]; split <;> rfl
  | gotoLabel l => dsimp only [validateStatement]; split <;> rfl
  | nextS v =>
      dsimp only [validateStatement]
      cases st.forStack with
      | nil => rfl
      | cons top rest => dsimp only; split <;> rfl
  | wendS =>
      dsimp only [validateStatement]
      cases st.whileStack <;> rfl
  | untilS c =>
      dsimp only [validateStatement]
      cases st.repeatStack <;> rfl
  | loopS c =>
      dsimp only [validateStatement]
      cases st.doStack <;> rfl
  | _ => rfl

theorem validateStatement_errors (st : AnalyzerState) (ln : Nat) (s : Stmt) :
    ∃ es, (validateStatement st ln s).errors = st.errors ++ es := by
  cases s with
  | gotoLine t =>
      dsimp only [validateStatement]
      split
      · exact ⟨[], (List.append_nil _).symm⟩
      · exact ⟨[.UNDEFINED_LINE], rfl⟩
  | gotoLabel l =>
      dsimp only [validateStatement]
      split
      · exact ⟨[], (List.append_nil _).symm⟩
      · exact ⟨[.UNDEFINED_LABEL], rfl⟩
  | nextS v =>
      dsimp only [validateStatement]
      cases st.forStack with
      | nil => exact ⟨[.NEXT_WITHOUT_FOR], rfl⟩
      | cons top rest =>
          dsimp only
          split
          · exact ⟨[.CONTROL_FLOW_MISMATCH], rfl⟩
          · exact ⟨[], (List.append_nil _).symm⟩
  | wendS =>
      dsimp only [validateStatement]
      cases st.whileStack with
      | nil => exact ⟨[.WEND_WITHOUT_WHILE], rfl⟩
      | cons x rest => exact ⟨[], (List.append_nil _).symm⟩
  | untilS c =>
      dsimp only [validateStatement]
      cases st.repeatStack with
      | nil => exact ⟨[.UNTIL_WITHOUT_REPEAT], rfl⟩
      | cons x rest => exact ⟨[], (List.append_nil _).symm⟩
  | loopS c =>
      dsimp only [validateStatement]
      cases st.doStack with
      | nil => exact ⟨[.LOOP_WITHOUT_DO], rfl⟩
      | cons x rest => exact ⟨[], (List.append_nil _).symm⟩
  | _ => exact ⟨[], (List.append_nil _).symm⟩

theorem validateProgramLine_symbolTable (line : ProgramLine) :
    ∀ st : AnalyzerState,
      (validateProgramLine st line).symbolTable = st.symbolTable := by
  unfold validateProgramLine
  induction line.statements with
  | nil => intro st; rfl
  | cons s rest ih =>
      intro st
      rw [List.foldl_cons, ih, validateStatement_symbolTable]

theorem validateProgramLine_errors (line : ProgramLine) :
    ∀ st : AnalyzerState,
      ∃ es, (validateProgramLine st line).errors = st.errors ++ es := by
  unfold validateProgramLine
  induction line.statements with
  | nil => intro st; exact ⟨[], by simp⟩
  | cons s rest ih =>
      intro st
      obtain ⟨es1, h1⟩ := validateStatement_errors st line.lineNumber s
      obtain ⟨es2, h2⟩ := ih (validateStatement st line.lineNumber s)
      exact ⟨es1 ++ es2, by rw [List.foldl_cons, h2, h1, List.append_assoc]⟩

theorem foldl_validateProgramLine_errors (lines : List ProgramLine) :
    ∀ st : AnalyzerState,
      ∃ es, (lines.foldl validateProgramLine st).errors = st.errors ++ es := by
  induction lines with
  | nil => intro st; exact ⟨[], by simp⟩
  | cons l rest ih =>
      intro st
      obtain ⟨es1, h1⟩ := validateProgramLine_errors l st
      obtain ⟨es2, h2⟩ := ih (validateProgramLine st l)
      exact ⟨es1 ++ es2, by rw [List.foldl_cons, h2, h1, List.append_assoc]⟩

/-- If a statement list contains `GOTO t` and `t` is not a registered line
number, the pass-2 statement walk records `UNDEFINED_LINE`. -/
theorem foldStmts_undefined_line (stmts : List Stmt) (ln t : Nat) :
    ∀ st : AnalyzerState, Stmt.gotoLine t ∈ stmts →
      t ∉ st.symbolTable.lineNumbers →
      SemanticErrorType.UNDEFINED_LINE ∈
        (stmts.foldl (fun st stmt => validateStatement st ln stmt) st).errors := by
  induction stmts with
  | nil => intro st h; simp at h
  | cons s rest ih =>
      intro st hmem ht
      rw [List.foldl_cons]
      by_cases hs : s = Stmt.gotoLine t
      · subst hs
        have hrep : (validateStatement st ln (Stmt.gotoLine t)).errors =
            st.errors ++ [SemanticErrorType.UNDEFINED_LINE] := by
          simp [validateStatement, ht, report]
        obtain ⟨es', hes'⟩ : ∃ es',
            (rest.foldl (fun st stmt => validateStatement st ln stmt)
              (validateStatement st ln (Stmt.gotoLine t))).errors =
            (validateStatement st ln (Stmt.gotoLine t)).errors ++ es' := by
          have := validateProgramLine_errors ⟨ln, rest⟩
            (validateStatement st ln (Stmt.gotoLine t))
          simpa [validateProgramLine] using this
        rw [hes', hrep]
        simp
      · have hmem' : Stmt.gotoLine t ∈ rest := by
          rcases List.mem_cons.mp hmem with h | h
          · exact absurd h.symm hs
          · exact h
        have ht' : t ∉ (validateStatement st ln s).symbolTable.lineNumbers := by
          rw [validateStatement_symbolTable]; exact ht
        exact ih (validateStatement st ln s) hmem' ht'

/-- Lifts `foldStmts_undefined_line` to the whole of pass 2. -/
theorem pass2_undefined_line (lines : List ProgramLine) (ln t : Nat)
    (stmts : List Stmt) :
    ∀ st : AnalyzerState, (⟨ln, stmts⟩ : ProgramLine) ∈ lines →
      Stmt.gotoLine t ∈ stmts → t ∉ st.symbolTable.lineNumbers →
      SemanticErrorType.UNDEFINED_LINE ∈
        (lines.foldl validateProgramLine st).errors := by
  induction lines with
  | nil => intro st h; simp at h
  | cons l rest ih =>
      intro st hline hmem ht
      rw [List.foldl_cons]
      by_cases hl : l = (⟨ln, stmts⟩ : ProgramLine)
      · subst hl
        have hhit := foldStmts_undefined_line stmts ln t st hmem ht
        obtain ⟨es, hes⟩ := foldl_validateProgramLine_errors rest
          (validateProgramLine st ⟨ln, stmts⟩)
        rw [hes]
        have : (validateProgramLine st (⟨ln, stmts⟩ : ProgramLine)).errors =
            (stmts.foldl (fun st stmt => validateStatement st ln stmt) st).errors := rfl
        rw [this]
        exact List.mem_append_left _ hhit
      · have hline' : (⟨ln, stmts⟩ : ProgramLine) ∈ rest := by
          rcases List.mem_cons.mp hline with h | h
          · exact absurd h.symm hl
          · exact h
        have ht' : t ∉ (validateProgramLine st l).symbolTable.lineNumbers := by
          rw [validateProgramLine_symbolTable]; exact ht
        exact ih (validateProgramLine st l) hline' hmem ht'

/-- A fold of state-transformers that each preserve an observation
preserves it as a whole. -/
theorem foldl_pres {β γ : Type} (P : AnalyzerState → γ)
    (f : AnalyzerState → β → AnalyzerState)
    (hf : ∀ st x, P (f st x) = P st) :
    ∀ (l : List β) (st : AnalyzerState), P (l.foldl f st) = P st := by
  intro l
  induction l with
  | nil => intro st; rfl
  | cons x xs ih => intro st; rw [List.foldl_cons, ih, hf]

theorem declareLabel_lineNumbers (st : AnalyzerState) (name : String) :
    (declareLabel st name).symbolTable.lineNumbers =
      st.symbolTable.lineNumbers := by
  unfold declareLabel
  split <;> rfl

theorem processDimDims_symbolTable (dims : List Expr) :
    ∀ acc : AnalyzerState × List Int × Int,
      ((dims.foldl dimStep acc).1).symbolTable = acc.1.symbolTable := by
  induction dims with
  | nil => intro acc; rfl
  | cons e es ih =>
      intro acc
      rw [List.foldl_cons, ih]
      obtain ⟨st, d, t⟩ := acc
      cases e with
      | num v =>
          dsimp only [dimStep]
          split <;> rfl
      | strLit v => rfl
      | var n => rfl
      | arrayAccess n i => rfl
      | binary o a b => rfl
      | unary o a => rfl
      | call n a => rfl
      | registryCall n a => rfl
      | iif a b c => rfl

theorem processDimArray_lineNumbers (st : AnalyzerState) (a : ArrayDim) :
    (processDimArray st a).symbolTable.lineNumbers =
      st.symbolTable.lineNumbers := by
  unfold processDimArray
  split
  · rfl
  · dsimp only [processDimDims]
    have := processDimDims_symbolTable a.dimensions (st, [], 1)
    rcases hfold : a.dimensions.foldl dimStep (st, [], 1) with ⟨st', d, t⟩
    rw [hfold] at this
    simp only []
    rw [show st'.symbolTable = st.symbolTable from this]

theorem processDefStatement_lineNumbers (st : AnalyzerState) (n : String)
    (ps : List String) (b : Expr) :
    (processDefStatement st n ps b).symbolTable.lineNumbers =
      st.symbolTable.lineNumbers := by
  unfold processDefStatement
  split <;> rfl

theorem pass1_lineNumbers (st : AnalyzerState) (p : Program) :
    (pass1 st p).symbolTable.lineNumbers =
      (collectLineNumbers st p).symbolTable.lineNumbers := by
  unfold pass1 collectDefStatements collectDimStatements collectLabels
  rw [foldl_pres (fun st => st.symbolTable.lineNumbers)]
  · rw [foldl_pres (fun st => st.symbolTable.lineNumbers)]
    · rw [foldl_pres (fun st => st.symbolTable.lineNumbers)]
      intro st line
      rw [foldl_pres (fun st => st.symbolTable.lineNumbers)]
      intro st stmt
      cases stmt <;> first
        | rfl
        | exact declareLabel_lineNumbers _ _
    · intro st line
      rw [foldl_pres (fun st => st.symbolTable.lineNumbers)]
      intro st stmt
      cases stmt with
      | dim arrays =>
          exact foldl_pres (fun st => st.symbolTable.lineNumbers)
            processDimArray (fun st a => processDimArray_lineNumbers st a)
            arrays st
      | _ => rfl
  · intro st line
    rw [foldl_pres (fun st => st.symbolTable.lineNumbers)]
    intro st stmt
    cases stmt <;> first
      | rfl
      | exact processDefStatement_lineNumbers _ _ _ _

/-- Everything `collectLineNumbers` registers is either pre-existing or a
line number of the program. -/
theorem collectLineNumbers_mem (lines : List ProgramLine) :
    ∀ (st : AnalyzerState) (x : Nat),
      x ∈ (lines.foldl collectLineNumbersStep st).symbolTable.lineNumbers →
      x ∈ st.symbolTable.lineNumbers ∨ ∃ pl ∈ lines, pl.lineNumber = x := by
  induction lines with
  | nil => intro st x h; exact Or.inl h
  | cons l rest ih =>
      intro st x h
      rw [List.foldl_cons] at h
      rcases ih (collectLineNumbersStep st l) x h with h' | ⟨pl, hpl, hx⟩
      · unfold collectLineNumbersStep at h'
        split at h'
        · split at h'
          · exact Or.inl h'
          · simp only [] at h'
            rcases List.mem_append.mp h' with h'' | h''
            · exact Or.inl h''
            · exact Or.inr ⟨l, by simp, (List.mem_singleton.mp h'').symm⟩
        · exact Or.inl h'
      · exact Or.inr ⟨pl, by simp [hpl], hx⟩

theorem validateControlFlow_errors (st : AnalyzerState) :
    ∃ es, (validateControlFlow st).errors = st.errors ++ es := by
  unfold validateControlFlow
  by_cases h1 : st.forStack = [] <;> by_cases h2 : st.whileStack = [] <;>
    by_cases h3 : st.repeatStack = [] <;>
      simp [h1, h2, h3, report]

/-! ### The CFG side of GOTO resolution (`fasterbasic_ircode.cpp`)

A CFG block, reduced to what `getBlockForLineOrNext` consults: its id and
its first line number. -/

structure CFGBlockInfo where
  id : Nat
  firstLine : Nat
deriving DecidableEq

/-- Modelled from the spec: `ControlFlowGraph::getBlockForLineOrNext` (the
CFG builder's source file is not among the provided sources; §4.6:
"`block_for_line_or_next(n)` returns the block with the smallest first line
≥ `n`").  The C++ `-1` sentinel is modelled as `none`. -/
def getBlockForLineOrNext (blocks : List CFGBlockInfo) (n : Nat) : Option Nat :=
  match blocks.filter (fun b => n ≤ b.firstLine) with
  | [] => none
  | b :: bs =>
      some ((bs.foldl
        (fun best b' => if b'.firstLine < best.firstLine then b' else best)
        b).id)

/-- `IRGenerator::getLabelForBlock`: the `m_blockLabels` entry if present,
otherwise a freshly allocated label recorded in the map.  State is
`(blockLabels, nextLabel)`. -/
def getLabelForBlock (blockLabels : List (Nat × Nat)) (nextLabel : Nat)
    (blockId : Nat) : Nat × List (Nat × Nat) × Nat :=
  match blockLabels.lookup blockId with
  | some l => (l, blockLabels, nextLabel)
  | none => (nextLabel, blockLabels ++ [(blockId, nextLabel)], nextLabel + 1)

/-- `IRGenerator::getLabelForLineNumber`: resolve the target line through
`getBlockForLineOrNext`, fall back to a fresh label when no block
qualifies. -/
def getLabelForLineNumber (blocks : List CFGBlockInfo)
    (blockLabels : List (Nat × Nat)) (nextLabel : Nat) (lineNumber : Nat) :
    Nat × List (Nat × Nat) × Nat :=
  match getBlockForLineOrNext blocks lineNumber with
  | some blockId => getLabelForBlock blockLabels nextLabel blockId
  | none => (nextLabel, blockLabels, nextLabel + 1)

theorem foldl_min_firstLine (b : CFGBlockInfo) :
    ∀ (l : List CFGBlockInfo) (init : CFGBlockInfo),
      (init = b ∨ b ∈ l) →
      (∀ x, (x = init ∨ x ∈ l) → x = b ∨ b.firstLine < x.firstLine) →
      l.foldl
        (fun best b' => if b'.firstLine < best.firstLine then b' else best)
        init = b := by
  intro l
  induction l with
  | nil =>
      intro init hmem _
      rcases hmem with rfl | h
      · rfl
      · simp at h
  | cons c cs ih =>
      intro init hmem hall
      rw [List.foldl_cons]
      have hcprop : c = b ∨ b.firstLine < c.firstLine := hall c (Or.inr (by simp))
      have hiprop : init = b ∨ b.firstLine < init.firstLine := hall init (Or.inl rfl)
      have hnextprop : ∀ y,
          (y = (if c.firstLine < init.firstLine then c else init) ∨ y ∈ cs) →
          y = b ∨ b.firstLine < y.firstLine := by
        intro y hy
        rcases hy with rfl | hys
        · split
          · exact hcprop
          · exact hiprop
        · exact hall y (Or.inr (by simp [hys]))
      have hnextmem :
          (if c.firstLine < init.firstLine then c else init) = b ∨ b ∈ cs := by
        rcases hmem with rfl | hm
        · rcases hcprop with rfl | hlt
          · left; split <;> rfl
          · left; rw [if_neg (by omega)]
        · rcases List.mem_cons.mp hm with heq | hbs
          · subst heq
            rcases hiprop with rfl | hlt
            · left; split <;> rfl
            · left; rw [if_pos hlt]
          · right; exact hbs
      exact ih _ hnextmem hnextprop

/-- `10 GOTO 50 : 20 ... : 30 ... : 100 ...` — the spec's §8.4.3 example. -/
def progGotoFifty : Program :=
  ⟨[⟨10, [.gotoLine 50]⟩, ⟨20, []⟩, ⟨30, []⟩, ⟨100, []⟩]⟩

/-- Counterexample to **C1** as stated: on the claim's own example
(`GOTO 50` with lines 10, 20, 30, 100) the semantic analyzer reports
`UNDEFINED_LINE` and analysis fails — it does not compile silently with the
jump retargeted to line 100. -/
theorem goto_gap_counterexample :
    (analyze AnalyzerState.init progGotoFifty defaultOptions).1 = false ∧
    (analyze AnalyzerState.init progGotoFifty defaultOptions).2.errors =
      [.UNDEFINED_LINE] := by
  decide

/-- **C1 (amended).** A `GOTO` whose line-number target is not a line of
the program draws `UNDEFINED_LINE` from the semantic analyzer and fails
analysis *regardless* of whether a greater line exists; and, separately,
`IRGenerator::getLabelForLineNumber` (used when IR generation does run)
resolves such a target to the label of the block with the smallest first
line number ≥ the target. -/
theorem goto_undefined_line_and_resolution
    (st0 : AnalyzerState) (p : Program) (opts : CompilerOptions)
    (ln t : Nat) (stmts : List Stmt)
    (hline : (⟨ln, stmts⟩ : ProgramLine) ∈ p.lines)
    (hstmt : Stmt.gotoLine t ∈ stmts)
    (ht : ∀ pl ∈ p.lines, pl.lineNumber ≠ t)
    (blocks : List CFGBlockInfo) (b : CFGBlockInfo)
    (blockLabels : List (Nat × Nat)) (nextLabel : Nat)
    (hb : b ∈ blocks) (hbge : t ≤ b.firstLine)
    (hmin : ∀ b' ∈ blocks, t ≤ b'.firstLine →
      b' = b ∨ b.firstLine < b'.firstLine) :
    SemanticErrorType.UNDEFINED_LINE ∈ (analyze st0 p opts).2.errors ∧
    (analyze st0 p opts).1 = false ∧
    (getLabelForLineNumber blocks blockLabels nextLabel t).1 =
      (getLabelForBlock blockLabels nextLabel b.id).1 := by
  have hform : analyze st0 p opts =
      ((validateControlFlow (pass2 (pass1
          { st0 with
            errors := [], warnings := [],
            symbolTable :=
              { SymbolTable.fresh with unicodeMode := opts.unicodeMode },
            forStack := [], whileStack := [], repeatStack := [] } p) p)).errors.isEmpty,
        validateControlFlow (pass2 (pass1
          { st0 with
            errors := [], warnings := [],
            symbolTable :=
              { SymbolTable.fresh with unicodeMode := opts.unicodeMode },
            forStack := [], whileStack := [], repeatStack := [] } p) p)) := rfl
  have hnotin : t ∉ (pass1
      { st0 with
        errors := [], warnings := [],
        symbolTable := { SymbolTable.fresh with unicodeMode := opts.unicodeMode },
        forStack := [], whileStack := [], repeatStack := [] } p).symbolTable.lineNumbers := by
    rw [pass1_lineNumbers]
    intro hmem
    rcases collectLineNumbers_mem p.lines _ t hmem with h | ⟨pl, hpl, hx⟩
    · simp [SymbolTable.fresh] at h
    · exact ht pl hpl hx
  have hmem2 : SemanticErrorType.UNDEFINED_LINE ∈
      (pass2 (pass1
        { st0 with
          errors := [], warnings := [],
          symbolTable := { SymbolTable.fresh with unicodeMode := opts.unicodeMode },
          forStack := [], whileStack := [], repeatStack := [] } p) p).errors :=
    pass2_undefined_line p.lines ln t stmts _ hline hstmt hnotin
  have hmem3 : SemanticErrorType.UNDEFINED_LINE ∈
      (validateControlFlow (pass2 (pass1
        { st0 with
          errors := [], warnings := [],
          symbolTable := { SymbolTable.fresh with unicodeMode := opts.unicodeMode },
          forStack := [], whileStack := [], repeatStack := [] } p) p)).errors := by
    obtain ⟨es, hes⟩ := validateControlFlow_errors
      (pass2 (pass1
        { st0 with
          errors := [], warnings := [],
          symbolTable := { SymbolTable.fresh with unicodeMode := opts.unicodeMode },
          forStack := [], whileStack := [], repeatStack := [] } p) p)
    rw [hes]
    exact List.mem_append_left _ hmem2
  have hblock : getBlockForLineOrNext blocks t = some b.id := by
    unfold getBlockForLineOrNext
    cases hf : blocks.filter (fun b' => t ≤ b'.firstLine) with
    | nil =>
        have hbf : b ∈ blocks.filter (fun b' => t ≤ b'.firstLine) :=
          List.mem_filter.mpr ⟨hb, by simpa using hbge⟩
        rw [hf] at hbf
        simp at hbf
    | cons f0 fs =>
        have hbf : b ∈ f0 :: fs := by
          rw [← hf]
          exact List.mem_filter.mpr ⟨hb, by simpa using hbge⟩
        have hallf : ∀ x, (x = f0 ∨ x ∈ fs) →
            x = b ∨ b.firstLine < x.firstLine := by
          intro x hx
          have hxf : x ∈ blocks.filter (fun b' => t ≤ b'.firstLine) := by
            rw [hf]
            rcases hx with rfl | h
            · exact List.mem_cons_self _ _
            · exact List.mem_cons_of_mem _ h
          obtain ⟨hxb, hxge⟩ := List.mem_filter.mp hxf
          exact hmin x hxb (by simpa using hxge)
        show some ((List.foldl
          (fun best b' => if b'.firstLine < best.firstLine then b' else best)
          f0 fs).id) = some b.id
        rw [foldl_min_firstLine b fs f0
          ((List.mem_cons.mp hbf).imp_left Eq.symm) hallf]
  refine ⟨?_, ?_, ?_⟩
  · rw [hform]; exact hmem3
  · rw [hform]
    cases herr : (validateControlFlow (pass2 (pass1
        { st0 with
          errors := [], warnings := [],
          symbolTable := { SymbolTable.fresh with unicodeMode := opts.unicodeMode },
          forStack := [], whileStack := [], repeatStack := [] } p) p)).errors with
    | nil => rw [herr] at hmem3; simp at hmem3
    | cons a l => simp [herr]
  · unfold getLabelForLineNumber
    rw [hblock]

/-- The CFG blocks of `progGotoFifty` (one per line) and the pre-populated
block-label map, as `IRGenerator::generate` builds them. -/
def gotoBlocks : List CFGBlockInfo := [⟨0, 10⟩, ⟨1, 20⟩, ⟨2, 30⟩, ⟨3, 100⟩]

def gotoBlockLabels : List (Nat × Nat) := [(0, 1), (1, 2), (2, 3), (3, 4)]

/-- Witness for `goto_undefined_line_and_resolution` on the spec's own
`GOTO 50` example. -/
theorem goto_undefined_line_and_resolution_witness :
    SemanticErrorType.UNDEFINED_LINE ∈
      (analyze AnalyzerState.init progGotoFifty defaultOptions).2.errors ∧
    (analyze AnalyzerState.init progGotoFifty defaultOptions).1 = false ∧
    (getLabelForLineNumber gotoBlocks gotoBlockLabels 5 50).1 =
      (getLabelForBlock gotoBlockLabels 5 (⟨3, 100⟩ : CFGBlockInfo).id).1 :=
  goto_undefined_line_and_resolution AnalyzerState.init progGotoFifty
    defaultOptions 10 50 [.gotoLine 50]
    (List.mem_cons_self _ _) (List.mem_cons_self _ _)
    (by
      intro pl h
      simp only [progGotoFifty, List.mem_cons, List.not_mem_nil, or_false] at h
      rcases h with rfl | rfl | rfl | rfl <;> decide)
    gotoBlocks ⟨3, 100⟩ gotoBlockLabels 5
    (by decide) (by decide) (by decide)

/-! ## IR generator (`fasterbasic_ircode.cpp`)

Instructions carry their operands directly.  The generator itself is
modelled with a fuel parameter bounding its recursion depth: the C++ code
recurses on the native stack, and the only unbounded recursion is `DEF FN`
inline expansion (`generateInlinedFunction` ↔ `generateExpression`), so a
computation that succeeds for some fuel is exactly one that terminates. -/

inductive IROperand where
  | int (v : Int)
  | str (s : String)
deriving DecidableEq

inductive Instr where
  | PUSH_INT (v : Int)
  | PUSH_STRING (s : String)
  | LOAD_VAR (name : String)
  | STORE_VAR (name : String)
  | LOAD_CONST (index : Int)
  | LOAD_ARRAY (name : String) (count : Nat)
  | CALL_BUILTIN (name : String) (count : Nat)
  | CALL_FUNCTION (name : String) (count : Nat)
  | ADD | STR_CONCAT | UNICODE_CONCAT
  | SUB | MUL | DIV | IDIV | POW | MOD
  | EQ | NE | LT | LE | GT | GE
  | AND | OR | XOR | EQV | IMP
  | NEG | NOT | NOP
  | LABEL (labelId : Nat)
  | WHILE_START (op : IROperand)
  | WHILE_END (op : Option IROperand)
deriving DecidableEq

/-- The inputs `IRGenerator` reads while lowering expressions: the symbol
table's `variables`/`arrays` (reduced to their types), `constants`
(reduced to their manager indices), `OPTION UNICODE`, the `FUNCTION`/`SUB`
names (`m_functions`) and the `DEF FN` table (`m_userFunctions`:
parameters and body). -/
structure IREnv where
  vars : List (String × VariableType)
  arrays : List (String × VariableType)
  constants : List (String × Int)
  functions : List String
  userFunctions : List (String × (List String × Expr))
  unicodeMode : Bool

/-- The `name.back() == '$' || name.substr(size-7) == "_STRING"` test that
`isStringExpression` applies to variable, function and array names. -/
def stringFnName (name : String) : Bool :=
  name ≠ "" &&
    (name.back == '$' || (name.length > 7 && name.takeRight 7 == "_STRING"))

/-- The built-in string functions `isStringExpression` recognizes by
name. -/
def stringBuiltins : List String :=
  ["LEFT$", "RIGHT$", "MID$", "CHR$", "STR$",
   "LEFT_STRING", "RIGHT_STRING", "MID_STRING", "CHR_STRING", "STR_STRING",
   "STRING_STRING", "SPACE_STRING", "LCASE_STRING", "UCASE_STRING",
   "LTRIM_STRING", "RTRIM_STRING", "TRIM_STRING", "REVERSE_STRING"]

/-- `IRGenerator::isStringExpression`. -/
def isStringExpression (env : IREnv) : Expr → Bool
  | .strLit _ => true
  | .var name =>
      (match env.vars.lookup name with
       | some t => t == .STRING || t == .UNICODE
       | none =>
           match env.arrays.lookup name with
           | some t => t == .STRING || t == .UNICODE
           | none => stringFnName name)
  | .arrayAccess name _ => stringBuiltins.contains name || stringFnName name
  | .call name _ => stringBuiltins.contains name || stringFnName name
  | .binary op l r =>
      op == .PLUS && (isStringExpression env l || isStringExpression env r)
  | .iif _ t f => isStringExpression env t || isStringExpression env f
  | _ => false

/-- The opcode `generateExpression` emits for a binary operator; `PLUS`
dispatches on string-typedness and `OPTION UNICODE`, unknown operators
fall back to `NOP`. -/
def binaryOpInstr (env : IREnv) (op : TokenType) (l r : Expr) : Instr :=
  match op with
  | .PLUS =>
      if isStringExpression env l || isStringExpression env r then
        (if env.unicodeMode then .UNICODE_CONCAT else .STR_CONCAT)
      else .ADD
  | .MINUS => .SUB
  | .MULTIPLY => .MUL
  | .DIVIDE => .DIV
  | .INT_DIVIDE => .IDIV
  | .POWER => .POW
  | .MOD => .MOD
  | .EQUAL => .EQ
  | .NOT_EQUAL => .NE
  | .LESS_THAN => .LT
  | .LESS_EQUAL => .LE
  | .GREATER_THAN => .GT
  | .GREATER_EQUAL => .GE
  | .AND => .AND
  | .OR => .OR
  | .XOR => .XOR
  | .EQV => .EQV
  | .IMP => .IMP
  | _ => .NOP

mutual
/-- `IRGenerator::generateExpression`.  `pm`/`inl` are `m_parameterMap` and
`m_inFunctionInlining` (their save/restore discipline becomes parameter
passing).  Fuel `0` is exhaustion (`none`); the C++ analogue is unbounded
stack growth. -/
def genExpr (env : IREnv) (pm : List (String × String)) (inl : Bool) :
    Nat → Expr → Option (List Instr)
  | 0, _ => none
  | _ + 1, .num value => some [.PUSH_INT value]
  | _ + 1, .strLit s => some [.PUSH_STRING s]
  | _ + 1, .var name =>
      (match env.constants.lookup name with
       | some index => some [.LOAD_CONST index]
       | none =>
           if inl then
             match pm.lookup name with
             | some tmp => some [.LOAD_VAR tmp]
             | none => some [.LOAD_VAR name]
           else some [.LOAD_VAR name])
  | fuel + 1, .arrayAccess name indices =>
      if (env.arrays.lookup name).isSome then do
        let code ← genList env pm inl fuel indices
        some (code ++ [.LOAD_ARRAY name indices.length])
      else if (env.userFunctions.lookup name).isSome then
        genInline env pm inl fuel name indices
      else if env.functions.contains name then do
        let code ← genList env pm inl fuel indices
        some (code ++ [.CALL_FUNCTION name indices.length])
      else do
        let code ← genList env pm inl fuel indices
        some (code ++ [.CALL_BUILTIN name indices.length])
  | fuel + 1, .binary op l r => do
      let cl ← genExpr env pm inl fuel l
      let cr ← genExpr env pm inl fuel r
      some (cl ++ cr ++ [binaryOpInstr env op l r])
  | fuel + 1, .unary op e => do
      let c ← genExpr env pm inl fuel e
      match op with
      | .MINUS => some (c ++ [.NEG])
      | .NOT => some (c ++ [.NOT])
      | .PLUS => some c
      | _ => some (c ++ [.NOP])
  | fuel + 1, .call name args =>
      if (env.userFunctions.lookup name).isSome then
        genInline env pm inl fuel name args
      else if env.functions.contains name then do
        let code ← genList env pm inl fuel args
        some (code ++ [.CALL_FUNCTION name args.length])
      else do
        let code ← genList env pm inl fuel args
        some (code ++ [.CALL_BUILTIN name args.length])
  | fuel + 1, .registryCall name args => do
      let code ← genList env pm inl fuel args
      some (code ++ [.CALL_BUILTIN name args.length])
  | fuel + 1, .iif c t f => do
      let cc ← genExpr env pm inl fuel c
      let ct ← genExpr env pm inl fuel t
      let cf ← genExpr env pm inl fuel f
      some (cc ++ ct ++ cf ++ [.CALL_BUILTIN "__IIF" 3])

/-- Argument lists, lowered left to right. -/
def genList (env : IREnv) (pm : List (String × String)) (inl : Bool) :
    Nat → List Expr → Option (List Instr)
  | 0, _ => none
  | _ + 1, [] => some []
  | fuel + 1, e :: es => do
      let c ← genExpr env pm inl fuel e
      let cs ← genList env pm inl fuel es
      some (c ++ cs)

/-- `IRGenerator::generateInlinedFunction`: evaluate the arguments into
`__fn_<func>_<param>` temporaries, install the parameter map, lower the
body with inlining active, restore.  An unknown function pushes a dummy
`0`. -/
def genInline (env : IREnv) (pm : List (String × String)) (inl : Bool) :
    Nat → String → List Expr → Option (List Instr)
  | 0, _, _ => none
  | fuel + 1, funcName, args =>
      match env.userFunctions.lookup funcName with
      | none => some [.PUSH_INT 0]
      | some (params, body) => do
          let (argCode, pm2) ← genArgs env pm inl fuel funcName (args.zip params)
          let bodyCode ← genExpr env pm2 true fuel body
          some (argCode ++ bodyCode)

/-- `generateInlinedFunction`'s argument loop: each argument is evaluated
under the map built so far, stored into its temporary, and the map is
extended. -/
def genArgs (env : IREnv) (pm : List (String × String)) (inl : Bool) :
    Nat → String → List (Expr × String) →
    Option (List Instr × List (String × String))
  | 0, _, _ => none
  | _ + 1, _, [] => some ([], pm)
  | fuel + 1, funcName, (arg, param) :: rest => do
      let c ← genExpr env pm inl fuel arg
      let tmp := "__fn_" ++ funcName ++ "_" ++ param
      let (cs, pm2) ←
        genArgs env ((param, tmp) :: pm) inl fuel funcName rest
      some (c ++ [.STORE_VAR tmp] ++ cs, pm2)
end

/-- The string-literal escaping of `IRGenerator::serializeExpression`: the
C++ runs two sequential replacement loops (backslashes doubled first, then
quotes prefixed), each skipping its own insertions via `pos += 2`; since
the quote pass introduces no further quotes and never revisits the
backslash pass's output, the net effect is this per-character map. -/
def escapeChars : List Char → List Char
  | [] => []
  | c :: cs =>
      if c = '\\' then '\\' :: '\\' :: escapeChars cs
      else if c = '"' then '\\' :: '"' :: escapeChars cs
      else c :: escapeChars cs

/-- The operator spellings `serializeExpression` knows; operators outside
this table (`XOR`, `EQV`, `IMP`, …) make serialization fail. -/
def serializeBinaryOp : TokenType → Option String
  | .PLUS => some "+"
  | .MINUS => some "-"
  | .MULTIPLY => some "*"
  | .DIVIDE => some "/"
  | .INT_DIVIDE => some "//"
  | .MOD => some "%"
  | .POWER => some "^"
  | .EQUAL => some "=="
  | .NOT_EQUAL => some "~="
  | .LESS_THAN => some "<"
  | .LESS_EQUAL => some "<="
  | .GREATER_THAN => some ">"
  | .GREATER_EQUAL => some ">="
  | .AND => some "and"
  | .OR => some "or"
  | _ => none

/-- `IRGenerator::serializeExpression` — textual form of a condition for
deferred evaluation; `""` means "cannot serialize, fall back to the label
pattern".  (`std::to_string` of the literal's value; number literals carry
integral values in this model.) -/
def serializeExpression : Expr → String
  | .num value => toString value
  | .strLit v => "\"" ++ String.mk (escapeChars v.data) ++ "\""
  | .var name => "var_" ++ name
  | .binary op l r =>
      let left := serializeExpression l
      let right := serializeExpression r
      if left = "" || right = "" then ""
      else
        match serializeBinaryOp op with
        | some o => "(" ++ left ++ " " ++ o ++ " " ++ right ++ ")"
        | none => ""
  | .unary op e =>
      let operand := serializeExpression e
      if operand = "" then ""
      else if op = .MINUS then "(-" ++ operand ++ ")"
      else if op = .NOT then "(not " ++ operand ++ ")"
      else operand
  | .call _ _ => ""
  | _ => ""

/-- The `WHILE` generator's state: `m_whileLoopLabels` (back = top),
`m_nextLabel`, and the emitted instructions. -/
structure WhileGen where
  whileLoopLabels : List Int
  nextLabel : Nat
  code : List Instr
deriving DecidableEq

/-- `IRGenerator::generateWhile`: serialize the condition if possible and
emit `WHILE_START <expr>` (pushing `-1`); otherwise allocate a label, emit
it, push it, lower the condition and emit `WHILE_START <label>`. -/
def generateWhile (fuel : Nat) (env : IREnv) (s : WhileGen) (cond : Expr) :
    Option WhileGen :=
  let serializedExpr := serializeExpression cond
  if serializedExpr ≠ "" then
    some { s with
      code := s.code ++ [.WHILE_START (.str serializedExpr)],
      whileLoopLabels := s.whileLoopLabels ++ [-1] }
  else
    let whileLabel := s.nextLabel
    do
      let condCode ← genExpr env [] false fuel cond
      some { whileLoopLabels := s.whileLoopLabels ++ [(whileLabel : Int)],
             nextLabel := s.nextLabel + 1,
             code := s.code ++ [.LABEL whileLabel] ++ condCode ++
               [.WHILE_START (.int whileLabel)] }

/-- `IRGenerator::generateWend`: pop the label (`none` models the
`std::runtime_error` on an empty stack); `-1` means deferred evaluation
(`WHILE_END` without operand), otherwise `WHILE_END <label>`. -/
def generateWend (s : WhileGen) : Option WhileGen :=
  match s.whileLoopLabels.getLast? with
  | none => none
  | some whileLabel =>
      let s2 := { s with whileLoopLabels := s.whileLoopLabels.dropLast }
      if whileLabel ≥ 0 then
        some { s2 with code := s2.code ++ [.WHILE_END (some (.int whileLabel))] }
      else
        some { s2 with code := s2.code ++ [.WHILE_END none] }

/-! ### String-typed `+` lowering (claim C8) -/

def typeIsString : Option VariableType → Bool
  | some t => t == .STRING || t == .UNICODE
  | none => false

/-- The claim's enumeration of "string-typed" operand forms, written from
its words: a string literal; a variable or array of STRING/UNICODE type or
with a `$`/`_STRING` suffix; a string-returning built-in or user function;
a `+` with a string side; an `IIF` with a string branch. -/
def specStringTyped (env : IREnv) : Expr → Bool
  | .strLit _ => true
  | .var name =>
      typeIsString (env.vars.lookup name) ||
        typeIsString (env.arrays.lookup name) || stringFnName name
  | .arrayAccess name _ => stringBuiltins.contains name || stringFnName name
  | .call name _ => stringBuiltins.contains name || stringFnName name
  | .binary op l r =>
      op == .PLUS && (specStringTyped env l || specStringTyped env r)
  | .iif _ t f => specStringTyped env t || specStringTyped env f
  | _ => false

/-- Invariants the analyzer maintains on the tables the IR generator
receives: a `$`/`_STRING`-suffixed name is recorded with a string type
(`inferTypeFromName`), and a name is not simultaneously a scalar variable
and an array. -/
def TablesConsistent (env : IREnv) : Prop :=
  (∀ name ty, (env.vars.lookup name = some ty ∨
      env.arrays.lookup name = some ty) →
    stringFnName name = true → ty = .STRING ∨ ty = .UNICODE) ∧
  (∀ name, (env.vars.lookup name).isSome → env.arrays.lookup name = none)

theorem isString_eq_spec (env : IREnv) (hc : TablesConsistent env) :
    ∀ e, isStringExpression env e = specStringTyped env e
  | .num _ => rfl
  | .strLit _ => rfl
  | .var name => by
      show (match env.vars.lookup name with
            | some t => t == VariableType.STRING || t == VariableType.UNICODE
            | none =>
                match env.arrays.lookup name with
                | some t => t == VariableType.STRING || t == VariableType.UNICODE
                | none => stringFnName name) =
          (typeIsString (env.vars.lookup name) ||
            typeIsString (env.arrays.lookup name) || stringFnName name)
      obtain ⟨h1, h2⟩ := hc
      cases hv : env.vars.lookup name with
      | some t =>
          have ha := h2 name (by simp [hv])
          rw [ha]
          by_cases hs : stringFnName name = true
          · rcases h1 name t (Or.inl hv) hs with rfl | rfl <;>
              simp [typeIsString, hs]
          · rw [Bool.not_eq_true] at hs
            simp [typeIsString, hs]
      | none =>
          cases ha : env.arrays.lookup name with
          | some t =>
              by_cases hs : stringFnName name = true
              · rcases h1 name t (Or.inr ha) hs with rfl | rfl <;>
                  simp [typeIsString, hs]
              · rw [Bool.not_eq_true] at hs
                simp [typeIsString, hs]
          | none => simp [typeIsString]
  | .arrayAccess _ _ => rfl
  | .binary op l r => by
      show (op == TokenType.PLUS &&
          (isStringExpression env l || isStringExpression env r)) = _
      rw [isString_eq_spec env hc l, isString_eq_spec env hc r]
      rfl
  | .unary _ _ => rfl
  | .call _ _ => rfl
  | .registryCall _ _ => rfl
  | .iif c t f => by
      show (isStringExpression env t || isStringExpression env f) = _
      rw [isString_eq_spec env hc t, isString_eq_spec env hc f]
      rfl

/-- **C8.** Lowering `l + r`: the operands' code is emitted left then
right, followed by `UNICODE_CONCAT` when either side is string-typed (in
the claim's sense) and `OPTION UNICODE` is on, `STR_CONCAT` when either
side is string-typed without unicode mode, and `ADD` otherwise. -/
theorem plus_lowering (fuel : Nat) (env : IREnv) (pm : List (String × String))
    (inl : Bool) (l r : Expr) (cl cr : List Instr)
    (hc : TablesConsistent env)
    (hl : genExpr env pm inl fuel l = some cl)
    (hr : genExpr env pm inl fuel r = some cr) :
    genExpr env pm inl (fuel + 1) (.binary .PLUS l r) =
      some (cl ++ cr ++
        [if specStringTyped env l || specStringTyped env r then
          (if env.unicodeMode then Instr.UNICODE_CONCAT else Instr.STR_CONCAT)
         else Instr.ADD]) := by
  simp [genExpr, hl, hr, binaryOpInstr, isString_eq_spec env hc l,
    isString_eq_spec env hc r]

/-- The empty IR environment (trivially consistent tables). -/
def emptyIREnv : IREnv := ⟨[], [], [], [], [], false⟩

theorem emptyIREnv_consistent : TablesConsistent emptyIREnv := by
  constructor
  · intro name ty h _
    rcases h with h | h <;> simp [emptyIREnv, List.lookup] at h
  · intro name h
    simp [emptyIREnv, List.lookup] at h

/-- Witness for `plus_lowering`: `"x" + 1` concatenates (string left
operand, no unicode mode), so `STR_CONCAT` is emitted after the two
pushes. -/
theorem plus_lowering_witness :
    genExpr emptyIREnv [] false 2 (.binary .PLUS (.strLit "x") (.num 1)) =
      some ([Instr.PUSH_STRING "x"] ++ [Instr.PUSH_INT 1] ++
        [if specStringTyped emptyIREnv (.strLit "x") ||
            specStringTyped emptyIREnv (.num 1) then
          (if emptyIREnv.unicodeMode then Instr.UNICODE_CONCAT
           else Instr.STR_CONCAT)
         else Instr.ADD]) :=
  plus_lowering 1 emptyIREnv [] false (.strLit "x") (.num 1)
    [Instr.PUSH_STRING "x"] [Instr.PUSH_INT 1] emptyIREnv_consistent rfl rfl

/-! ### `WHILE` deferred evaluation (claim C7) -/

theorem toDigitsCore_ne_nil (b : Nat) :
    ∀ (fuel n : Nat) (ds : List Char), (0 < fuel ∨ ds ≠ []) →
      Nat.toDigitsCore b fuel n ds ≠ [] := by
  intro fuel
  induction fuel with
  | zero =>
      intro n ds h
      rcases h with h | h
      · omega
      · simpa [Nat.toDigitsCore] using h
  | succ k ih =>
      intro n ds _
      unfold Nat.toDigitsCore
      dsimp only
      split
      · simp
      · exact ih _ _ (Or.inr (by simp))

theorem nat_repr_ne_empty (n : Nat) : Nat.repr n ≠ "" := by
  unfold Nat.repr Nat.toDigits
  intro h
  have hne := toDigitsCore_ne_nil 10 (n + 1) n [] (Or.inl (by omega))
  apply hne
  have hdata : (Nat.toDigitsCore 10 (n + 1) n []).asString.data =
      ([] : List Char) := by rw [h]
  simpa [List.asString] using hdata

theorem int_toString_ne_empty (v : Int) : toString v ≠ "" := by
  show Int.repr v ≠ ""
  cases v with
  | ofNat m => exact nat_repr_ne_empty m
  | negSucc m =>
      show "-" ++ Nat.repr (m + 1) ≠ ""
      intro h
      have hlen : ("-" ++ Nat.repr (m + 1)).length = 0 := by rw [h]; rfl
      rw [String.length_append] at hlen
      have h1 : ("-" : String).length = 1 := rfl
      omega

theorem string_append_ne_left (a b : String) (h : a ≠ "") : a ++ b ≠ "" := by
  intro hab
  apply h
  have hd : (a ++ b).data = [] := by rw [hab]
  rw [String.data_append] at hd
  rcases List.append_eq_nil.mp hd with ⟨ha, _⟩
  cases a
  simp_all

theorem string_append_ne_right (a b : String) (h : b ≠ "") : a ++ b ≠ "" := by
  intro hab
  apply h
  have hd : (a ++ b).data = [] := by rw [hab]
  rw [String.data_append] at hd
  rcases List.append_eq_nil.mp hd with ⟨_, hb⟩
  cases b
  simp_all

/-- "Simple expression" in the claim's (amended) sense: literals,
variables, unary operators, and binary operators drawn from the
serializable table — the operators of §4.2's precedence list.  `XOR`,
`EQV`, `IMP`, function calls, array accesses, registry calls and `IIF`
are outside it. -/
def Simple : Expr → Bool
  | .num _ => true
  | .strLit _ => true
  | .var _ => true
  | .unary _ e => Simple e
  | .binary op l r => (serializeBinaryOp op).isSome && Simple l && Simple r
  | _ => false

theorem serialize_empty_iff :
    ∀ e : Expr, (serializeExpression e = "") ↔ Simple e = false
  | .num v => by
      simp [serializeExpression, Simple]
      exact int_toString_ne_empty v
  | .strLit v => by
      simp [serializeExpression, Simple]
      exact string_append_ne_right _ "\"" (by decide)
  | .var name => by
      simp [serializeExpression, Simple]
      exact string_append_ne_left "var_" name (by decide)
  | .binary op l r => by
      have ihl := serialize_empty_iff l
      have ihr := serialize_empty_iff r
      by_cases hl : serializeExpression l = ""
      · have hsl : Simple l = false := ihl.mp hl
        simp [serializeExpression, Simple, hl, hsl]
      · have hsl : Simple l = true := by
          rcases Bool.eq_false_or_eq_true (Simple l) with h | h
          · exact h
          · exact absurd (ihl.mpr h) hl
        by_cases hr : serializeExpression r = ""
        · have hsr : Simple r = false := ihr.mp hr
          simp [serializeExpression, Simple, hl, hr, hsl, hsr]
        · have hsr : Simple r = true := by
            rcases Bool.eq_false_or_eq_true (Simple r) with h | h
            · exact h
            · exact absurd (ihr.mpr h) hr
          cases hop : serializeBinaryOp op with
          | none => simp [serializeExpression, Simple, hl, hr, hsl, hsr, hop]
          | some o =>
              simp [serializeExpression, Simple, hl, hr, hsl, hsr, hop]
              exact string_append_ne_left "(" _ (by decide)
  | .unary op e => by
      have ihe := serialize_empty_iff e
      by_cases he : serializeExpression e = ""
      · have hse : Simple e = false := ihe.mp he
        simp [serializeExpression, Simple, he, hse]
      · have hse : Simple e = true := by
          rcases Bool.eq_false_or_eq_true (Simple e) with h | h
          · exact h
          · exact absurd (ihe.mpr h) he
        by_cases hm : op = TokenType.MINUS
        · simp [serializeExpression, Simple, he, hse, hm]
          exact string_append_ne_left "(-" _ (by decide)
        · by_cases hn : op = TokenType.NOT
          · simp [serializeExpression, Simple, he, hse, hm, hn]
            exact string_append_ne_left "(not " _ (by decide)
          · simp [serializeExpression, Simple, he, hse, hm, hn]
  | .arrayAccess _ _ => by simp [serializeExpression, Simple]
  | .call _ _ => by simp [serializeExpression, Simple]
  | .registryCall _ _ => by simp [serializeExpression, Simple]
  | .iif _ _ _ => by simp [serializeExpression, Simple]

/-- **C7 (amended).** A `WHILE` whose condition is built only from
literals, variables, unary operators and binary operators of the
serializable table (no function calls — and none of `XOR`/`EQV`/`IMP`,
which the original claim overlooked) is emitted as `WHILE_START` carrying
the condition's textual serialization, with `-1` pushed so the matching
`WEND` emits `WHILE_END` without a label; any other condition gets a fresh
label `L`, the condition's stack code, `WHILE_START L`, and its `WEND`
emits `WHILE_END L`. -/
theorem while_wend_spec (fuel : Nat) (env : IREnv) (s : WhileGen)
    (cond : Expr) (condCode : List Instr) :
    (Simple cond = true →
      generateWhile fuel env s cond = some
        { s with
          code := s.code ++ [.WHILE_START (.str (serializeExpression cond))],
          whileLoopLabels := s.whileLoopLabels ++ [-1] }) ∧
    (Simple cond = false →
      genExpr env [] false fuel cond = some condCode →
      generateWhile fuel env s cond = some
        { whileLoopLabels := s.whileLoopLabels ++ [(s.nextLabel : Int)],
          nextLabel := s.nextLabel + 1,
          code := s.code ++ [.LABEL s.nextLabel] ++ condCode ++
            [.WHILE_START (.int s.nextLabel)] }) ∧
    (∀ (s2 : WhileGen) (ls : List Int),
      (s2.whileLoopLabels = ls ++ [-1] →
        generateWend s2 = some
          { s2 with
            whileLoopLabels := ls,
            code := s2.code ++ [.WHILE_END none] }) ∧
      (∀ L : Nat, s2.whileLoopLabels = ls ++ [(L : Int)] →
        generateWend s2 = some
          { s2 with
            whileLoopLabels := ls,
            code := s2.code ++ [.WHILE_END (some (.int L))] })) := by
  refine ⟨?_, ?_, ?_⟩
  · intro hsimple
    have hne : serializeExpression cond ≠ "" := by
      intro h
      rw [(serialize_empty_iff cond).mp h] at hsimple
      cases hsimple
    simp [generateWhile, hne]
  · intro hsimple hcode
    have heq : serializeExpression cond = "" := (serialize_empty_iff cond).mpr hsimple
    simp [generateWhile, heq, hcode]
  · intro s2 ls
    constructor
    · intro hlast
      have hget : s2.whileLoopLabels.getLast? = some (-1) := by
        rw [hlast]
        simp
      simp [generateWend, hget, hlast]
    · intro L hlast
      have hget : s2.whileLoopLabels.getLast? = some ((L : Int)) := by
        rw [hlast]
        simp
      have hge : ((L : Int) ≥ 0) := by omega
      simp [generateWend, hget, hlast, hge]

/-- Counterexample to **C7** as stated: `WHILE (1 XOR 0)` has a condition
built only from number literals and a binary operator, yet the generator
cannot serialize `XOR` and falls back to the label pattern instead of
emitting `WHILE_START` with the serialized condition. -/
theorem while_xor_counterexample :
    serializeExpression (.binary .XOR (.num 1) (.num 0)) = "" ∧
    generateWhile 2 emptyIREnv ⟨[], 1, []⟩ (.binary .XOR (.num 1) (.num 0)) =
      some ⟨[(1 : Int)], 2,
        [.LABEL 1, .PUSH_INT 1, .PUSH_INT 0, .XOR, .WHILE_START (.int 1)]⟩ ∧
    generateWhile 2 emptyIREnv ⟨[], 1, []⟩ (.binary .XOR (.num 1) (.num 0)) ≠
      some ⟨[-1], 1,
        [.WHILE_START (.str (serializeExpression
          (.binary .XOR (.num 1) (.num 0))))]⟩ := by
  decide

/-- Witness for `while_wend_spec` on the simple condition `var_I < 10`
(deferred path) and its `WEND`. -/
theorem while_wend_spec_witness :
    (Simple (.binary .LESS_THAN (.var "I") (.num 10)) = true →
      generateWhile 2 emptyIREnv ⟨[], 1, []⟩
          (.binary .LESS_THAN (.var "I") (.num 10)) = some
        { (⟨[], 1, []⟩ : WhileGen) with
          code := ([] : List Instr) ++ [.WHILE_START (.str (serializeExpression
            (.binary .LESS_THAN (.var "I") (.num 10))))],
          whileLoopLabels := ([] : List Int) ++ [-1] }) ∧
    (Simple (.binary .LESS_THAN (.var "I") (.num 10)) = false →
      genExpr emptyIREnv [] false 2
          (.binary .LESS_THAN (.var "I") (.num 10)) =
        some [.LOAD_VAR "I", .PUSH_INT 10, .LT] →
      generateWhile 2 emptyIREnv ⟨[], 1, []⟩
          (.binary .LESS_THAN (.var "I") (.num 10)) = some
        { whileLoopLabels := ([] : List Int) ++ [((1 : Nat) : Int)],
          nextLabel := 1 + 1,
          code := ([] : List Instr) ++ [.LABEL 1] ++
            [.LOAD_VAR "I", .PUSH_INT 10, .LT] ++ [.WHILE_START (.int 1)] }) ∧
    (∀ (s2 : WhileGen) (ls : List Int),
      (s2.whileLoopLabels = ls ++ [-1] →
        generateWend s2 = some
          { s2 with
            whileLoopLabels := ls,
            code := s2.code ++ [.WHILE_END none] }) ∧
      (∀ L : Nat, s2.whileLoopLabels = ls ++ [(L : Int)] →
        generateWend s2 = some
          { s2 with
            whileLoopLabels := ls,
            code := s2.code ++ [.WHILE_END (some (.int L))] })) :=
  while_wend_spec 2 emptyIREnv ⟨[], 1, []⟩
    (.binary .LESS_THAN (.var "I") (.num 10))
    [.LOAD_VAR "I", .PUSH_INT 10, .LT]

/-! ### `DEF FN` inlining termination (claim C5) -/

mutual
/-- "References no `DEF FN` function": no sub-expression of `e` is lowered
through `generateInlinedFunction` — array accesses resolve as arrays (or at
least not as `DEF FN`s) and calls are not `DEF FN` names. -/
def noUserCalls (env : IREnv) : Expr → Bool
  | .num _ => true
  | .strLit _ => true
  | .var _ => true
  | .arrayAccess name idxs =>
      ((env.arrays.lookup name).isSome || !(env.userFunctions.lookup name).isSome)
        && noUserCallsList env idxs
  | .binary _ l r => noUserCalls env l && noUserCalls env r
  | .unary _ e => noUserCalls env e
  | .call name args =>
      !(env.userFunctions.lookup name).isSome && noUserCallsList env args
  | .registryCall _ args => noUserCallsList env args
  | .iif c t f =>
      noUserCalls env c && noUserCalls env t && noUserCalls env f

def noUserCallsList (env : IREnv) : List Expr → Bool
  | [] => true
  | e :: es => noUserCalls env e && noUserCallsList env es
end

/-- With enough fuel (any bound above the expression's size), lowering an
expression that references no `DEF FN` always succeeds: the generator's
only unbounded recursion is inline expansion. -/
theorem genExpr_enough_fuel (env : IREnv) :
    ∀ fuel : Nat,
      (∀ (e : Expr) (pm : List (String × String)) (inl : Bool),
        sizeOf e ≤ fuel → noUserCalls env e = true →
        (genExpr env pm inl fuel e).isSome = true) ∧
      (∀ (l : List Expr) (pm : List (String × String)) (inl : Bool),
        sizeOf l ≤ fuel → noUserCallsList env l = true →
        (genList env pm inl fuel l).isSome = true) := by
  intro fuel
  induction fuel with
  | zero =>
      constructor
      · intro e pm inl hsz _
        have : 0 < sizeOf e := by cases e <;> simp_arith
        omega
      · intro l pm inl hsz _
        have : 0 < sizeOf l := by cases l <;> simp_arith
        omega
  | succ k ih =>
      obtain ⟨ihE, ihL⟩ := ih
      constructor
      · intro e pm inl hsz hnc
        cases e with
        | num v => rfl
        | strLit v => rfl
        | var name =>
            cases hconst : env.constants.lookup name with
            | some index => simp [genExpr, hconst]
            | none =>
                cases inl with
                | false => simp [genExpr, hconst]
                | true =>
                    cases hpm : pm.lookup name with
                    | some tmp => simp [genExpr, hconst, hpm]
                    | none => simp [genExpr, hconst, hpm]
        | arrayAccess name idxs =>
            have hszi : sizeOf idxs ≤ k := by
              simp_arith at hsz
              omega
            simp only [noUserCalls, Bool.and_eq_true] at hnc
            obtain ⟨hres, hidxs⟩ := hnc
            obtain ⟨c, hc⟩ := Option.isSome_iff_exists.mp
              (ihL idxs pm inl hszi hidxs)
            cases harr : (env.arrays.lookup name).isSome with
            | true => simp [genExpr, harr, hc]
            | false =>
                have huf : (env.userFunctions.lookup name).isSome = false := by
                  rw [harr, Bool.false_or, Bool.not_eq_true'] at hres
                  exact hres
                simp [genExpr, harr, huf, hc]
                split <;> simp
        | binary op l r =>
            have hszl : sizeOf l ≤ k := by simp_arith at hsz; omega
            have hszr : sizeOf r ≤ k := by simp_arith at hsz; omega
            simp only [noUserCalls, Bool.and_eq_true] at hnc
            obtain ⟨hncl, hncr⟩ := hnc
            obtain ⟨cl, hl⟩ := Option.isSome_iff_exists.mp
              (ihE l pm inl hszl hncl)
            obtain ⟨cr, hr⟩ := Option.isSome_iff_exists.mp
              (ihE r pm inl hszr hncr)
            simp [genExpr, hl, hr]
        | unary op e =>
            have hsze : sizeOf e ≤ k := by simp_arith at hsz; omega
            obtain ⟨c, hc⟩ := Option.isSome_iff_exists.mp
              (ihE e pm inl hsze hnc)
            cases op <;> simp [genExpr, hc]
        | call name args =>
            have hsza : sizeOf args ≤ k := by simp_arith at hsz; omega
            simp only [noUserCalls, Bool.and_eq_true] at hnc
            obtain ⟨huf, hargs⟩ := hnc
            have huf2 : (env.userFunctions.lookup name).isSome = false := by
              rw [Bool.not_eq_true'] at huf
              exact huf
            obtain ⟨c, hc⟩ := Option.isSome_iff_exists.mp
              (ihL args pm inl hsza hargs)
            simp [genExpr, huf2, hc]
            split <;> simp
        | registryCall name args =>
            have hsza : sizeOf args ≤ k := by simp_arith at hsz; omega
            obtain ⟨c, hc⟩ := Option.isSome_iff_exists.mp
              (ihL args pm inl hsza hnc)
            simp [genExpr, hc]
        | iif c t f =>
            have hszc : sizeOf c ≤ k := by simp_arith at hsz; omega
            have hszt : sizeOf t ≤ k := by simp_arith at hsz; omega
            have hszf : sizeOf f ≤ k := by simp_arith at hsz; omega
            simp only [noUserCalls, Bool.and_eq_true] at hnc
            obtain ⟨⟨hnc1, hnc2⟩, hnc3⟩ := hnc
            obtain ⟨cc, hcc⟩ := Option.isSome_iff_exists.mp
              (ihE c pm inl hszc hnc1)
            obtain ⟨ct, hct⟩ := Option.isSome_iff_exists.mp
              (ihE t pm inl hszt hnc2)
            obtain ⟨cf, hcf⟩ := Option.isSome_iff_exists.mp
              (ihE f pm inl hszf hnc3)
            simp [genExpr, hcc, hct, hcf]
      · intro l pm inl hsz hnc
        cases l with
        | nil => rfl
        | cons e es =>
            have hsze : sizeOf e ≤ k := by simp_arith at hsz; omega
            have hszes : sizeOf es ≤ k := by simp_arith at hsz; omega
            simp only [noUserCallsList, Bool.and_eq_true] at hnc
            obtain ⟨hne, hnes⟩ := hnc
            obtain ⟨c, hc⟩ := Option.isSome_iff_exists.mp
              (ihE e pm inl hsze hne)
            obtain ⟨cs, hcs⟩ := Option.isSome_iff_exists.mp
              (ihL es pm inl hszes hnes)
            simp [genList, hc, hcs]

/-- Argument loops succeed on enough fuel when every argument references no
`DEF FN`. -/
theorem genArgs_enough_fuel (env : IREnv) :
    ∀ (fuel : Nat) (pairs : List (Expr × String))
      (pm : List (String × String)) (inl : Bool) (f : String),
      sizeOf pairs ≤ fuel →
      (∀ pr ∈ pairs, noUserCalls env pr.1 = true) →
      (genArgs env pm inl fuel f pairs).isSome = true := by
  intro fuel
  induction fuel with
  | zero =>
      intro pairs pm inl f hsz _
      have : 0 < sizeOf pairs := by cases pairs <;> simp_arith
      omega
  | succ k ih =>
      intro pairs pm inl f hsz hnc
      cases pairs with
      | nil => rfl
      | cons pr rest =>
          obtain ⟨arg, param⟩ := pr
          have hszarg : sizeOf arg ≤ k := by simp_arith at hsz; omega
          have hszrest : sizeOf rest ≤ k := by simp_arith at hsz; omega
          obtain ⟨c, hc⟩ := Option.isSome_iff_exists.mp
            ((genExpr_enough_fuel env k).1 arg pm inl hszarg
              (hnc (arg, param) (by simp)))
          obtain ⟨⟨cs, pm2⟩, hcs⟩ := Option.isSome_iff_exists.mp
            (ih rest ((param, "__fn_" ++ f ++ "_" ++ param) :: pm) inl f
              hszrest (fun pr hpr => hnc pr (by simp [hpr])))
          simp [genArgs, hc, hcs]

/-- **C5 (amended).** Inline expansion of a `DEF FN` call site terminates
whenever the function's body and the call's arguments reference no `DEF FN`
function (in particular, no self-reference): some fuel makes the generator
succeed.  The original claim's stronger version — termination for *every*
body accepted by pass 1, self-reference included, because pass 1 rejects it
— is refuted by `defFn_self_reference_counterexample`: pass 1 never
inspects the body. -/
theorem defFn_inline_terminates (env : IREnv) (f : String)
    (args : List Expr) (params : List String) (body : Expr)
    (pm : List (String × String)) (inl : Bool)
    (hf : env.userFunctions.lookup f = some (params, body))
    (hbody : noUserCalls env body = true)
    (hargs : ∀ a ∈ args, noUserCalls env a = true) :
    ∃ fuel c, genExpr env pm inl fuel (.call f args) = some c := by
  obtain ⟨⟨c1, pm2⟩, hc1⟩ := Option.isSome_iff_exists.mp
    (genArgs_enough_fuel env (sizeOf (args.zip params) + sizeOf body)
      (args.zip params) pm inl f (by omega)
      (fun pr hpr => hargs pr.1 (List.of_mem_zip hpr).1))
  obtain ⟨c2, hc2⟩ := Option.isSome_iff_exists.mp
    ((genExpr_enough_fuel env
      (sizeOf (args.zip params) + sizeOf body)).1 body pm2 true (by omega) hbody)
  refine ⟨sizeOf (args.zip params) + sizeOf body + 2, c1 ++ c2, ?_⟩
  have hufs : (env.userFunctions.lookup f).isSome = true := by simp [hf]
  simp [genExpr, genInline, hufs, hf, hc1, hc2]

/-- The environment holding the self-referencing definition
`DEF FNF = FNF()`. -/
def selfEnv : IREnv := ⟨[], [], [], [], [("F", ([], .call "F" []))], false⟩

/-- Inlining the self-referencing `DEF FN` never completes: no amount of
fuel suffices (the C++ recursion `generateInlinedFunction` →
`generateExpression` → `generateInlinedFunction` never returns). -/
theorem genExpr_selfF :
    ∀ (fuel : Nat) (pm : List (String × String)) (inl : Bool),
      genExpr selfEnv pm inl fuel (.call "F" []) = none := by
  intro fuel
  induction fuel using Nat.strong_induction_on with
  | _ fuel ih =>
      intro pm inl
      match fuel with
      | 0 => rfl
      | 1 => rfl
      | 2 => rfl
      | (j + 2) + 1 =>
          have hbody := ih (j + 1) (by omega) pm true
          simp [genExpr, genInline, genArgs, selfEnv] at hbody ⊢
          exact hbody

/-- Counterexample to **C5** as stated: pass 1 accepts the self-referencing
`DEF FNF = FNF()` without any error (the body is stored, never inspected),
and the IR generator's inline expansion of a call to it does not
terminate. -/
theorem defFn_self_reference_counterexample :
    (processDefStatement AnalyzerState.init "F" [] (.call "F" [])).errors = [] ∧
    ((processDefStatement AnalyzerState.init "F" []
        (.call "F" [])).symbolTable.functions.lookup "F").isSome = true ∧
    ¬ (∃ fuel c, genExpr selfEnv [] false fuel (.call "F" []) = some c) := by
  refine ⟨by decide, by decide, ?_⟩
  rintro ⟨fuel, c, h⟩
  rw [genExpr_selfF fuel [] false] at h
  cases h

/-- Witness for `defFn_inline_terminates`: `DEF FNG(X) = X + 1`, called
with argument `2`. -/
theorem defFn_inline_terminates_witness :
    ∃ fuel c,
      genExpr
        ⟨[], [], [], [],
          [("G", (["X"], .binary .PLUS (.var "X") (.num 1)))], false⟩
        [] false fuel (.call "G" [.num 2]) = some c :=
  defFn_inline_terminates
    ⟨[], [], [], [], [("G", (["X"], .binary .PLUS (.var "X") (.num 1)))], false⟩
    "G" [.num 2] ["X"] (.binary .PLUS (.var "X") (.num 1)) [] false
    rfl (by decide)
    (by
      intro a ha
      simp at ha
      subst ha
      decide)

end FB
